import Mathlib

/-!
# Shallow embedding of the op-account-appscripts reconciliation pipeline

This file models, in Lean, the data-consolidation scripts of the repository:
the domain-mapper (`AccountMapping` functions of the account-to-email-domain
module), the consolidated account view (`CalendarImport.js`), the
recap-to-calendar matcher (`MeetingCalendarMatcher.js`) and the meeting-recap
webhook handler, and proves the specification claims about them.

Modelling conventions:
* Sheets are lists of typed row records (one structure field per named column;
  the dynamic header-index lookups of the source resolve to these fields).
  A sheet that may be absent is an `Option` of its row list.
* Date/time cells are integer epoch milliseconds (`Int`), `none` for an empty
  cell; the current instant (`new Date()` in the source) is an explicit
  `now : Int` argument.
* JS `Map` objects are insertion-ordered association lists with
  overwrite-on-set semantics (`jsSet` / `jsGet`).
* JS string case conversion is modelled on the ASCII range.
-/

namespace OpAcct
/-- ASCII lower-casing of one character, as the JS `toLowerCase` acts on the
ASCII range. -/
def lowChar (c : Char) : Char :=
  if h : 65 ≤ c.toNat ∧ c.toNat ≤ 90 then
    ⟨⟨⟨⟨c.toNat + 32, by omega⟩⟩⟩, Or.inl (by show c.toNat + 32 < 55296; omega)⟩
  else c

/-- ASCII upper-casing of one character, as the JS `toUpperCase` acts on the
ASCII range. -/
def upChar (c : Char) : Char :=
  if h : 97 ≤ c.toNat ∧ c.toNat ≤ 122 then
    ⟨⟨⟨⟨c.toNat - 32, by omega⟩⟩⟩, Or.inl (by show c.toNat - 32 < 55296; omega)⟩
  else c

/-- Lower-casing on character lists. -/
def lowStr (l : List Char) : List Char := l.map lowChar

/-- JS `toLowerCase` on strings (ASCII model). -/
def strLower (s : String) : String := String.mk (lowStr s.data)

/-- JS `toUpperCase` on strings (ASCII model). -/
def strUpper (s : String) : String := String.mk (s.data.map upChar)

/-! ## JS `Map` and `Set` objects -/

/-- `Map.prototype.set`: overwrite the binding in place if the key is present,
append otherwise (insertion order preserved). -/
def jsSet {K V : Type} [DecidableEq K] (m : List (K × V)) (k : K) (v : V) :
    List (K × V) :=
  if m.any (fun p => decide (p.1 = k)) then
    m.map (fun p => if p.1 = k then (k, v) else p)
  else m ++ [(k, v)]

/-- `Map.prototype.get` (`none` for `undefined`). -/
def jsGet {K V : Type} [DecidableEq K] (m : List (K × V)) (k : K) : Option V :=
  (m.find? (fun p => decide (p.1 = k))).map (fun p => p.2)

/-- `Map.prototype.has`. -/
def jsHas {K V : Type} [DecidableEq K] (m : List (K × V)) (k : K) : Bool :=
  (jsGet m k).isSome

/-- The `if (!map.has(k)) map.set(k, []); map.get(k).push(v)` idiom. -/
def jsPush {K V : Type} [DecidableEq K] (m : List (K × List V)) (k : K) (v : V) :
    List (K × List V) :=
  match jsGet m k with
  | some l => jsSet m k (l ++ [v])
  | none => m ++ [(k, [v])]

/-- `Set.prototype.add` on an insertion-ordered element list. -/
def jsSetAdd {K : Type} [DecidableEq K] (s : List K) (x : K) : List K :=
  if x ∈ s then s else s ++ [x]

/-! ## Spreadsheet cell values

An `Account ID` cell of the `Email Communications` sheet may hold a string id,
a non-string value, or be empty; the source inspects both its JS truthiness and
`typeof`.  Other columns are modelled directly at their expected types. -/

inductive Cell : Type
  | emptyCell : Cell
  | strCell (s : String) : Cell
  | numCell (n : Int) : Cell
deriving DecidableEq, Repr

/-- JS truthiness of a cell value: empty cells, the empty string and the
number 0 are falsy. -/
def Cell.truthy : Cell → Bool
  | .emptyCell => false
  | .strCell s => decide (s ≠ "")
  | .numCell n => decide (n ≠ 0)

/-! ## Stable sorting

JS `Array.prototype.sort` with a numeric comparator is modelled with
Mathlib insertion sort over the corresponding boolean relation. -/

/-- Sort so that larger keys come first (comparator `keyB - keyA`). -/
def sortByKeyDesc {α : Type} (key : α → Int) (l : List α) : List α :=
  List.insertionSort (fun a b => key b ≤ key a) l

/-- Sort so that smaller keys come first (comparator `keyA - keyB`). -/
def sortByKeyAsc {α : Type} (key : α → Int) (l : List α) : List α :=
  List.insertionSort (fun a b => key a ≤ key b) l

instance instIsTotalKeyDesc {α : Type} (key : α → Int) :
    IsTotal α (fun a b => key b ≤ key a) :=
  ⟨fun a b => le_total (key b) (key a)⟩

instance instIsTransKeyDesc {α : Type} (key : α → Int) :
    IsTrans α (fun a b => key b ≤ key a) :=
  ⟨fun _ _ _ hab hbc => le_trans hbc hab⟩

/-! ## Domain Mapper: `getEmailDomainForAccount`

The source extracts an address with the regex
`/<([^>]+@[^>]+)>|([^\s<>"]+@[^\s<>",]+)/` and then the domain with
`/@([a-zA-Z0-9.-]+)/`, lower-cases and trims it.  The two regexes are modelled
as explicit leftmost-match scanners with the same greedy/backtracking
semantics; the JS `\s` class is modelled on its ASCII members. -/

/-- ASCII members of the JS `\s` character class. -/
def isSpaceJs (c : Char) : Bool :=
  c = ' ' || c = '\t' || c = '\n' || c = '\r' || c = '\x0b' || c = '\x0c'

/-- The `[^>]` class. -/
def notGt (c : Char) : Bool := !(c = '>')

/-- The `[^\s<>"]` class. -/
def classC (c : Char) : Bool :=
  !(isSpaceJs c || c = '<' || c = '>' || c = '"')

/-- The `[^\s<>",]` class. -/
def classD (c : Char) : Bool := classC c && !(c = ',')

/-- The `[a-zA-Z0-9.-]` class. -/
def domChar (c : Char) : Bool :=
  (65 ≤ c.toNat && c.toNat ≤ 90) || (97 ≤ c.toNat && c.toNat ≤ 122) ||
    (48 ≤ c.toNat && c.toNat ≤ 57) || c = '.' || c = '-'

/-- Alternative 1, `<([^>]+@[^>]+)>`, attempted at the head of the list.  The
greedy `[^>]+` pieces force the capture to be the whole maximal `[^>]` run
after the bracket, and the match succeeds exactly when that run is followed by
a closing bracket and contains an `@` that is neither its first nor its last
character. -/
def tryAlt1 : List Char → Option (List Char)
  | [] => none
  | c :: cs =>
    if c = '<' then
      let r := cs.takeWhile notGt
      if cs.dropWhile notGt ≠ [] ∧ '@' ∈ (r.drop 1).dropLast then some r
      else none
    else none

/-- For alternative 2, the greatest index `k ≥ 1` into the maximal `[^\s<>"]`
run such that position `k` holds an `@` followed by at least one `[^\s<>",]`
character (the backtracking order of the greedy first piece). -/
def bestAtSplit (rc : List Char) : Nat → Option Nat
  | 0 => none
  | Nat.succ k =>
    if rc[k + 1]? = some '@' ∧ (rc.drop (k + 2)).takeWhile classD ≠ []
    then some (k + 1)
    else bestAtSplit rc k

/-- Alternative 2, `([^\s<>"]+@[^\s<>",]+)`, attempted at the head of the
list. -/
def tryAlt2 (s : List Char) : Option (List Char) :=
  let rc := s.takeWhile classC
  match bestAtSplit rc rc.length with
  | some k => some (rc.take k ++ '@' :: (rc.drop (k + 1)).takeWhile classD)
  | none => none

/-- Leftmost match of the address regex: at each start position alternative 1
is tried before alternative 2. -/
def findAddr : List Char → Option (List Char)
  | [] => none
  | c :: cs =>
    match tryAlt1 (c :: cs) with
    | some r => some r
    | none =>
      match tryAlt2 (c :: cs) with
      | some r => some r
      | none => findAddr cs

/-- Leftmost match of `/@([a-zA-Z0-9.-]+)/`: the first `@` followed by at
least one domain character; the capture is the maximal domain-character run
after it ([] when the regex does not match). -/
def findDomain : List Char → List Char
  | [] => []
  | c :: cs =>
    if c = '@' ∧ cs.takeWhile domChar ≠ [] then cs.takeWhile domChar
    else findDomain cs

/-- JS `String.prototype.trim` (ASCII whitespace model). -/
def jsTrim (l : List Char) : List Char :=
  ((l.dropWhile isSpaceJs).reverse.dropWhile isSpaceJs).reverse

/-- JS trim on strings. -/
def strTrim (s : String) : String := String.mk (jsTrim s.data)

/-- Split a character list on a separator character (JS
`String.prototype.split` with a single-character separator). -/
def splitOnChar (sep : Char) : List Char → List (List Char)
  | [] => [[]]
  | c :: cs =>
    if c = sep then [] :: splitOnChar sep cs
    else
      match splitOnChar sep cs with
      | [] => [[c]]
      | g :: gs => (c :: g) :: gs

/-- Substring test (JS `String.prototype.includes`) on character lists. -/
def containsSubList (needle : List Char) : List Char → Bool
  | [] => decide (needle = [])
  | c :: cs =>
    decide ((c :: cs).take needle.length = needle) || containsSubList needle cs

/-- JS `String.prototype.includes`. -/
def containsSub (s sub : String) : Bool := containsSubList sub.data s.data

/-- JS `String.prototype.startsWith`. -/
def jsStartsWith (s p : String) : Bool :=
  decide (s.data.take p.data.length = p.data)

/-- `getEmailDomainForAccount(email)`: extract an address from a free-text
email field, then its domain, lower-cased and trimmed; empty string when
either regex fails (the source also returns the empty string for non-string
arguments, which the typed model excludes). -/
def getEmailDomainForAccount (email : String) : String :=
  match findAddr email.data with
  | none => ""
  | some addr =>
    let d := findDomain addr
    if d = [] then "" else String.mk (jsTrim (lowStr d))

/-! ## Sheet row models

One structure per sheet; field names follow the source column names.
Display-only columns that no modelled function reads are omitted. -/

/-- A data row of the `Accounts Card Report` sheet. -/
structure AccountRow where
  accountId : String
  accountName : String
  nextRenewalOppId : String
  autoRenewal : String
deriving DecidableEq, Repr

/-- A data row of the `Opptys Report` sheet. -/
structure OpptyRow where
  oppId : String
  oppName : String
deriving DecidableEq, Repr

/-- A data row of the `Renewal Opportunities` sheet.  `linkCell` is the
`Link to SF Opportunity` cell (hyperlink formula or plain text). -/
structure RenewalRow where
  linkCell : String
  renewalDate : Option Int
  renewable : String
  forcast : String
  status : String
  stage : String
  amountGross : String
  loginScore : String
  auditUsage : String
  journeyUsage : String
  forecast : String
  csm : String
  ae : String
  supportType : String
deriving DecidableEq, Repr

/-- A data row of the `GitHub Tasks` sheet. -/
structure GithubRow where
  taskId : String
  accountId : String
  state : String
  status : String
  title : String
deriving DecidableEq, Repr

/-- A data row of the `Email Communications` sheet.  The `Account ID` cell is
kept as a raw cell value because the source inspects its JS type. -/
structure EmailRow where
  accountId : Cell
  messageId : String
  date : Option Int
  fromAddr : String
  fromDomain : String
  subject : String
  bodyPreview : String
deriving DecidableEq, Repr

/-- A data row of the `Calendar Events` sheet. -/
structure CalendarRow where
  eventId : String
  title : String
  startTime : Option Int
  endTime : Option Int
  accountId : String
  acceptedCount : Int
  attendeeCount : Int
deriving DecidableEq, Repr

/-- A data row of the `Webhook Meeting Recaps` sheet. -/
structure RecapRow where
  meetingRecapId : String
  meetingTitle : String
  meetingDate : Option Int
  meetingEndTime : Option Int
  accountId : String
  accountName : String
  summary : String
  calendarEventId : String
deriving DecidableEq, Repr

/-- A data row of the `Meeting Action Items` sheet. -/
structure ActionItemRow where
  meetingRecapId : String
  actionItemIndex : String
  title : String
  description : String
  priority : String
deriving DecidableEq, Repr

/-- A data row of the `Accounts to Email Domains Mapping` sheet. -/
structure MappingRow where
  accountId : String
  accountName : String
  domains : String
deriving DecidableEq, Repr

/-- The active spreadsheet: each sheet is either absent (`none`, the
`getSheetByName` miss) or a list of data rows (the header row is implicit in
the typed fields). -/
structure Spreadsheet where
  accounts : Option (List AccountRow)
  opptys : Option (List OpptyRow)
  renewals : Option (List RenewalRow)
  github : Option (List GithubRow)
  emails : Option (List EmailRow)
  calendar : Option (List CalendarRow)
  meetingRecaps : Option (List RecapRow)
  actionItems : Option (List ActionItemRow)
  mapping : Option (List MappingRow)
deriving Repr

/-! ## `extractOpportunityNameFromLink`

The hyperlink-formula regex
`/=HYPERLINK\s*\(\s*"[^"]+"\s*,\s*"([^"]+)"\s*\)/i` is modelled as a
leftmost-match scanner for that fixed shape. -/

/-- Skip the `\s*` parts (ASCII whitespace model). -/
def dropSpaces (l : List Char) : List Char := l.dropWhile isSpaceJs

/-- Consume one expected literal character. -/
def expectChar (c : Char) : List Char → Option (List Char)
  | [] => none
  | x :: xs => if x = c then some xs else none

/-- Consume a nonempty `[^"]+` body plus its closing quote; return the body
and the remainder. -/
def takeQuotedBody (l : List Char) : Option (List Char × List Char) :=
  let body := l.takeWhile (fun c => !(c = '"'))
  match l.dropWhile (fun c => !(c = '"')) with
  | [] => none
  | _ :: rest => if body = [] then none else some (body, rest)

/-- Attempt the hyperlink-formula pattern at the head of the list; return the
captured label. -/
def parseHyperlinkAt (l : List Char) : Option (List Char) :=
  if lowStr (l.take 10) = "=hyperlink".data then
    match expectChar '(' (dropSpaces (l.drop 10)) with
    | none => none
    | some r2 =>
      match expectChar '"' (dropSpaces r2) with
      | none => none
      | some r4 =>
        match takeQuotedBody r4 with
        | none => none
        | some (_, r5) =>
          match expectChar ',' (dropSpaces r5) with
          | none => none
          | some r7 =>
            match expectChar '"' (dropSpaces r7) with
            | none => none
            | some r9 =>
              match takeQuotedBody r9 with
              | none => none
              | some (label, r10) =>
                match expectChar ')' (dropSpaces r10) with
                | none => none
                | some _ => some label
  else none

/-- Leftmost match of the hyperlink-formula pattern. -/
def findHyperlinkLabel : List Char → Option (List Char)
  | [] => none
  | c :: cs =>
    match parseHyperlinkAt (c :: cs) with
    | some label => some label
    | none => findHyperlinkLabel cs

/-- `extractOpportunityNameFromLink(linkCell)`: the label of a `HYPERLINK`
formula, or the plain text itself; `none` for an empty cell. -/
def extractOpportunityNameFromLink (linkCell : String) : Option String :=
  if linkCell = "" then none
  else
    match findHyperlinkLabel linkCell.data with
    | some label => some (String.mk label)
    | none => some linkCell

/-! ## Account-to-email-domain mapping module -/

/-- The `{accountId, accountName, opportunityId, opportunityName}` objects
held by `buildOpportunityToAccountMap`. -/
structure OppAccountInfo where
  accountId : String
  accountName : String
  opportunityId : String
  opportunityName : String
deriving DecidableEq, Repr

/-- `buildOpportunityToAccountMap()`: opportunity id to account info, kept
only for accounts whose resolved opportunity name is in the active renewal
set.  A missing input sheet yields the empty map. -/
def buildOpportunityToAccountMap (ss : Spreadsheet) :
    List (String × OppAccountInfo) :=
  match ss.renewals with
  | none => []
  | some renewalRows =>
    match ss.opptys with
    | none => []
    | some opptyRows =>
      match ss.accounts with
      | none => []
      | some accountRows =>
        let activeOpportunityNames := renewalRows.foldl (fun acc row =>
          if row.linkCell ≠ "" then
            match extractOpportunityNameFromLink row.linkCell with
            | some n => if n ≠ "" then jsSetAdd acc n else acc
            | none => acc
          else acc) []
        let oppNameToId := opptyRows.foldl (fun m row =>
          if row.oppId ≠ "" ∧ row.oppName ≠ "" then jsSet m row.oppName row.oppId
          else m) []
        let oppIdToAccount := accountRows.foldl (fun m row =>
          if row.accountId ≠ "" ∧ row.nextRenewalOppId ≠ "" then
            jsSet m row.nextRenewalOppId
              (⟨row.accountId, row.accountName, row.nextRenewalOppId, ""⟩ :
                OppAccountInfo)
          else m) []
        activeOpportunityNames.foldl (fun result oppName =>
          match jsGet oppNameToId oppName with
          | some oppId =>
            if oppId ≠ "" then
              match jsGet oppIdToAccount oppId with
              | some info =>
                jsSet result oppId { info with opportunityName := oppName }
              | none => result
            else result
          | none => result) []

/-- `buildAccountMap()`: account id to account info for the active
accounts. -/
def buildAccountMap (ss : Spreadsheet) : List (String × OppAccountInfo) :=
  (buildOpportunityToAccountMap ss).foldl
    (fun accountMap p => jsSet accountMap p.2.accountId p.2) []

/-- The normalisation `domains.split(',').map(d => d.trim().toLowerCase())`
applied to an `Email Domains` cell. -/
def normDomains (domains : String) : List String :=
  (splitOnChar ',' domains.data).map (fun d => strLower (strTrim (String.mk d)))

/-- The `{accountId, accountName}` objects held by the domain map. -/
structure AccountInfo where
  accountId : String
  accountName : String
deriving DecidableEq, Repr

/-- `buildDomainToAccountMap()`: normalised email domain to account, built by
insertion over the mapping rows (a later row overwrites an earlier binding of
the same domain). -/
def buildDomainToAccountMap (ss : Spreadsheet) : List (String × AccountInfo) :=
  match ss.mapping with
  | none => []
  | some rows =>
    rows.foldl (fun m row =>
      if row.domains ≠ "" then
        (normDomains row.domains).foldl (fun m d =>
          if d ≠ "" then jsSet m d (⟨row.accountId, row.accountName⟩ : AccountInfo)
          else m) m
      else m) []

/-- The result object of `findAccountByEmail` /
`findAccountByEmailCached`. -/
structure FullAccountInfo where
  accountId : String
  accountName : String
  opportunityId : Option String
  opportunityName : Option String
deriving DecidableEq, Repr

/-- The row scan of `findAccountByEmail`: the first mapping row whose
normalised domain list contains the domain. -/
def findMappingRowByDomain (domain : String) : List MappingRow → Option MappingRow
  | [] => none
  | row :: rest =>
    if row.domains ≠ "" ∧ domain ∈ normDomains row.domains then some row
    else findMappingRowByDomain domain rest

/-- `findAccountByEmail(email)`: extract the domain, scan the mapping sheet
top to bottom, and enrich the first hit with opportunity data from
`buildAccountMap`. -/
def findAccountByEmail (email : String) (ss : Spreadsheet) :
    Option FullAccountInfo :=
  let domain := getEmailDomainForAccount email
  if domain = "" then none
  else
    match ss.mapping with
    | none => none
    | some rows =>
      match findMappingRowByDomain domain rows with
      | none => none
      | some row =>
        let accountInfo := jsGet (buildAccountMap ss) row.accountId
        some ⟨row.accountId, row.accountName,
          accountInfo.map (fun a => a.opportunityId),
          accountInfo.map (fun a => a.opportunityName)⟩

/-- `findAccountByEmailCached(email, domainToAccountMap, accountMap)`: the
batch variant resolving through pre-built maps. -/
def findAccountByEmailCached (email : String)
    (domainToAccountMap : List (String × AccountInfo))
    (accountMap : List (String × OppAccountInfo)) : Option FullAccountInfo :=
  let domain := getEmailDomainForAccount email
  if domain = "" then none
  else
    match jsGet domainToAccountMap domain with
    | none => none
    | some accountInfo =>
      let fullAccountInfo := jsGet accountMap accountInfo.accountId
      some ⟨accountInfo.accountId, accountInfo.accountName,
        fullAccountInfo.map (fun a => a.opportunityId),
        fullAccountInfo.map (fun a => a.opportunityName)⟩

/-! ## Consolidated account view (`CalendarImport.js`) -/

/-- The source tables returned by `loadSourceData()`.  The three required
sheets abort the run when missing; the five optional ones degrade to an empty
table. -/
structure SourceData where
  accounts : List AccountRow
  opptys : List OpptyRow
  renewals : List RenewalRow
  github : List GithubRow
  emails : List EmailRow
  calendar : List CalendarRow
  meetingRecaps : List RecapRow
  actionItems : List ActionItemRow
deriving Repr

/-- `loadSourceData()`. -/
def loadSourceData (ss : Spreadsheet) : Except String SourceData :=
  match ss.accounts with
  | none => .error "Accounts Card Report sheet not found"
  | some accounts =>
    match ss.opptys with
    | none => .error "Opptys Report sheet not found"
    | some opptys =>
      match ss.renewals with
      | none => .error "Renewal Opportunities sheet not found"
      | some renewals =>
        .ok ⟨accounts, opptys, renewals, ss.github.getD [], ss.emails.getD [],
          ss.calendar.getD [], ss.meetingRecaps.getD [], ss.actionItems.getD []⟩

/-- The renewal-detail record built per opportunity name (defaults applied
where the row lacks a value). -/
structure RenewalDetails where
  renewalDate : Option Int
  renewable : String
  forcast : String
  status : String
  stage : String
  amountGross : String
  loginScore : String
  auditUsage : String
  journeyUsage : String
  forecast : String
  csm : String
  ae : String
  supportType : String
deriving DecidableEq, Repr

/-- The `renewalDetailMap.get(oppName) || {}` fallback with the per-field
`|| ''` defaults. -/
def emptyRenewalDetails : RenewalDetails :=
  ⟨none, "", "", "", "", "", "", "", "", "", "", "", ""⟩

/-- `buildRenewalOpportunityMap`: opportunity name (extracted from the link
cell) to the raw link cell. -/
def buildRenewalOpportunityMap (renewals : List RenewalRow) :
    List (String × String) :=
  renewals.foldl (fun m row =>
    if row.linkCell ≠ "" then
      match extractOpportunityNameFromLink row.linkCell with
      | some oppName => if oppName ≠ "" then jsSet m oppName row.linkCell else m
      | none => m
    else m) []

/-- `buildOppIdToNameMap`: opportunity id to opportunity name. -/
def buildOppIdToNameMap (opptys : List OpptyRow) : List (String × String) :=
  opptys.foldl (fun m row =>
    if row.oppId ≠ "" ∧ row.oppName ≠ "" then jsSet m row.oppId row.oppName
    else m) []

/-- `buildRenewalDetailMap`: opportunity name to renewal details. -/
def buildRenewalDetailMap (renewals : List RenewalRow) :
    List (String × RenewalDetails) :=
  renewals.foldl (fun m row =>
    match extractOpportunityNameFromLink row.linkCell with
    | some oppName =>
      if oppName ≠ "" then
        jsSet m oppName
          ⟨row.renewalDate, row.renewable, row.forcast, row.status, row.stage,
            row.amountGross, row.loginScore, row.auditUsage, row.journeyUsage,
            row.forecast, row.csm, row.ae, row.supportType⟩
      else m
    | none => m) []

/-- The per-task record aggregated by `buildGitHubByAccountMap` (the `state`
cell is upper-cased at ingestion). -/
structure TaskRec where
  taskId : String
  state : String
  status : String
  title : String
deriving DecidableEq, Repr

/-- `buildGitHubByAccountMap`: account id to its task records. -/
def buildGitHubByAccountMap (github : List GithubRow) :
    List (String × List TaskRec) :=
  github.foldl (fun m row =>
    if row.accountId ≠ "" then
      jsPush m row.accountId ⟨row.taskId, strUpper row.state, row.status, row.title⟩
    else m) []

/-- The per-email record aggregated by `buildEmailsByAccountMap`. -/
structure EmailRec where
  messageId : String
  date : Option Int
  isOutbound : Bool
  subject : String
  bodyPreview : String
deriving DecidableEq, Repr

/-- The "Account ID looks like a name instead of a Salesforce id" test of
`buildEmailsByAccountMap`: a string cell that does not start with any of the
accepted id markers. -/
def emailIdLooksLikeName : Cell → Bool
  | .strCell s =>
    !(jsStartsWith s "001" || jsStartsWith s "006" || jsStartsWith s "0010" ||
      jsStartsWith s "0016")
  | _ => false

/-- `buildEmailsByAccountMap`: account id cell to its email records, sorted
most-recent-first and capped at 500 per account. -/
def buildEmailsByAccountMap (emails : List EmailRow) :
    List (Cell × List EmailRec) :=
  let emailsByAccount := emails.foldl (fun m row =>
    if !row.accountId.truthy then m
    else if emailIdLooksLikeName row.accountId then m
    else
      jsPush m row.accountId
        ⟨row.messageId, row.date,
          containsSub (strLower row.fromDomain) "observepoint.com",
          row.subject, String.mk (row.bodyPreview.data.take 200)⟩) []
  emailsByAccount.map (fun p =>
    (p.1, (sortByKeyDesc (fun e => e.date.getD 0) p.2).take 500))

/-- `new Date('9999-12-31').getTime()`, the sentinel used for missing
dates. -/
def farFutureMs : Int := 253402214400000

/-- The per-event record aggregated by `buildCalendarByAccountMap`. -/
structure MeetingRec where
  eventId : String
  startTime : Option Int
  acceptedCount : Int
  attendeeCount : Int
deriving DecidableEq, Repr

/-- `buildCalendarByAccountMap`: account id to the 50 most recent past plus
50 soonest future events (an event with an empty start time is grouped as
future, as in the source). -/
def buildCalendarByAccountMap (now : Int) (calendar : List CalendarRow) :
    List (String × List MeetingRec) :=
  let eventsByAccount := calendar.foldl (fun m row =>
    if row.accountId ≠ "" then
      let ev : MeetingRec := ⟨row.eventId, row.startTime, row.acceptedCount,
        row.attendeeCount⟩
      let cur := (jsGet m row.accountId).getD (([], []) : List MeetingRec × List MeetingRec)
      let cur2 :=
        match row.startTime with
        | some t => if t < now then (cur.1 ++ [ev], cur.2) else (cur.1, cur.2 ++ [ev])
        | none => (cur.1, cur.2 ++ [ev])
      jsSet m row.accountId cur2
    else m) []
  eventsByAccount.map (fun p =>
    (p.1,
      (sortByKeyDesc (fun e => e.startTime.getD 0) p.2.1).take 50 ++
        (sortByKeyAsc (fun e => e.startTime.getD farFutureMs) p.2.2).take 50))

/-- The per-recap record aggregated by `buildMeetingRecapsByAccountMap`. -/
structure RecapRec where
  recapId : String
  meetingTitle : String
  meetingDate : Option Int
  summary : String
deriving DecidableEq, Repr

/-- `buildMeetingRecapsByAccountMap`: account id to its recap records. -/
def buildMeetingRecapsByAccountMap (meetingRecaps : List RecapRow) :
    List (String × List RecapRec) :=
  meetingRecaps.foldl (fun m row =>
    if row.accountId ≠ "" ∧ row.meetingRecapId ≠ "" then
      jsPush m row.accountId
        ⟨row.meetingRecapId, row.meetingTitle, row.meetingDate,
          String.mk (row.summary.data.take 500)⟩
    else m) []

/-- `buildActionItemsByAccountMap`: account id to concatenated action-item
ids.  Account ids are resolved through the `Webhook Meeting Recaps` sheet,
which this function re-reads from the spreadsheet (not from the source-data
snapshot). -/
def buildActionItemsByAccountMap (ss : Spreadsheet)
    (actionItems : List ActionItemRow) : List (String × List String) :=
  match ss.meetingRecaps with
  | none => []
  | some recapsData =>
    let recapIdToAccountId := recapsData.foldl (fun m r =>
      if r.meetingRecapId ≠ "" ∧ r.accountId ≠ "" then
        jsSet m r.meetingRecapId r.accountId
      else m) []
    actionItems.foldl (fun m row =>
      if row.meetingRecapId ≠ "" ∧ row.actionItemIndex ≠ "" then
        match jsGet recapIdToAccountId row.meetingRecapId with
        | some accountId =>
          jsPush m accountId (row.meetingRecapId ++ "_" ++ row.actionItemIndex)
        | none => m
      else m) []

/-- The `emails[0].date` access of `computeEngagementMetrics` (the list is
already sorted most-recent-first by `buildEmailsByAccountMap`). -/
def headDate : List EmailRec → Option Int
  | [] => none
  | e :: _ => e.date

/-- The `sorted[0].startTime` access of `computeEngagementMetrics`. -/
def headStartTime : List MeetingRec → Option Int
  | [] => none
  | m :: _ => m.startTime

/-- The last-contact combine of `computeEngagementMetrics`: the more recent
of the last email date and the last meeting date, if any. -/
def lastContactOf : Option Int → Option Int → Option Int
  | some e, some m => some (if e < m then m else e)
  | some e, none => some e
  | none, some m => some m
  | none, none => none

/-- The engagement-metrics record returned by `computeEngagementMetrics`. -/
structure Metrics where
  emailTotal : Int
  emailsSent : Int
  emailsReceived : Int
  emails30d : Int
  emails90d : Int
  lastEmailDate : Option Int
  meetingsPast : Int
  meetingsFuture : Int
  meetings30d : Int
  avgAttendancePct : Int
  lastMeetingDate : Option Int
  nextMeetingDate : Option Int
  tasksTotal : Int
  tasksOpen : Int
  tasksClosed : Int
  recapsCount : Int
  actionItemsCount : Int
  daysSinceLastContact : Option Int
  engagementScore : Int
deriving DecidableEq, Repr

/-- `computeEngagementMetrics(tasks, emails, meetings, meetingRecaps,
actionItems)` at instant `now`.  The floating-point attendance average is
modelled exactly in `ℚ` (`Math.round(x)` is `round` in Mathlib, both being
floor of `x + 1/2`). -/
def computeEngagementMetrics (now : Int) (tasks : List TaskRec)
    (emails : List EmailRec) (meetings : List MeetingRec)
    (meetingRecaps : List RecapRec) (actionItems : List String) : Metrics :=
  let cutoff30d : Int := now - 30 * 24 * 60 * 60 * 1000
  let cutoff90d : Int := now - 90 * 24 * 60 * 60 * 1000
  let emailTotal : Int := emails.length
  let emailsSent : Int := (emails.filter (fun e => e.isOutbound)).length
  let emailsReceived : Int := emailTotal - emailsSent
  let emails30d : Int := (emails.filter (fun e =>
    match e.date with
    | some d => decide (cutoff30d ≤ d)
    | none => false)).length
  let emails90d : Int := (emails.filter (fun e =>
    match e.date with
    | some d => decide (cutoff90d ≤ d)
    | none => false)).length
  let lastEmailDate : Option Int := headDate emails
  let pastMeetings := meetings.filter (fun m =>
    match m.startTime with
    | some d => decide (d < now)
    | none => false)
  let futureMeetings := meetings.filter (fun m =>
    match m.startTime with
    | some d => decide (now ≤ d)
    | none => false)
  let meetingsPast : Int := pastMeetings.length
  let meetingsFuture : Int := futureMeetings.length
  let meetings30d : Int := (pastMeetings.filter (fun m =>
    match m.startTime with
    | some d => decide (cutoff30d ≤ d)
    | none => false)).length
  let meetingsWithAttendees := pastMeetings.filter (fun m => 0 < m.attendeeCount)
  let avgAttendancePct : Int :=
    if meetingsWithAttendees.length ≠ 0 then
      let totalRate : ℚ := meetingsWithAttendees.foldl
        (fun sum m => sum + (m.acceptedCount : ℚ) / (m.attendeeCount : ℚ)) 0
      round (totalRate / (meetingsWithAttendees.length : ℚ) * 100)
    else 0
  let sortedPast := sortByKeyDesc (fun m : MeetingRec => m.startTime.getD 0) pastMeetings
  let lastMeetingDate : Option Int := headStartTime sortedPast
  let sortedFuture := sortByKeyAsc (fun m : MeetingRec => m.startTime.getD 0) futureMeetings
  let nextMeetingDate : Option Int := headStartTime sortedFuture
  let tasksTotal : Int := tasks.length
  let tasksOpen : Int := (tasks.filter (fun t => t.state = "OPEN")).length
  let tasksClosed : Int := (tasks.filter (fun t => t.state = "CLOSED")).length
  let recapsCount : Int := meetingRecaps.length
  let actionItemsCount : Int := actionItems.length
  let lastContactDate : Option Int := lastContactOf lastEmailDate lastMeetingDate
  let daysSinceLastContact : Option Int :=
    lastContactDate.map (fun d => Int.fdiv (now - d) 86400000)
  let score0 : Int :=
    match daysSinceLastContact with
    | none => 0
    | some days =>
      if days ≤ 7 then 40
      else if days ≤ 14 then 35
      else if days ≤ 30 then 25
      else if days ≤ 60 then 15
      else if days ≤ 90 then 8
      else if days ≤ 180 then 3
      else 0
  let score1 : Int := score0 +
    (if 10 ≤ emails90d then 20 else if 5 ≤ emails90d then 12
      else if 1 ≤ emails90d then 6 else 0)
  let score2 : Int := score1 +
    (if 3 ≤ meetings30d then 20 else if 2 ≤ meetings30d then 15
      else if 1 ≤ meetings30d then 10 else 0)
  let score3 : Int := score2 + (if 0 < meetingsFuture then 10 else 0)
  let score4 : Int := score3 +
    (if 5 ≤ tasksOpen then 10 else if 3 ≤ tasksOpen then 7
      else if 1 ≤ tasksOpen then 4 else 0)
  { emailTotal := emailTotal, emailsSent := emailsSent,
    emailsReceived := emailsReceived, emails30d := emails30d,
    emails90d := emails90d, lastEmailDate := lastEmailDate,
    meetingsPast := meetingsPast, meetingsFuture := meetingsFuture,
    meetings30d := meetings30d, avgAttendancePct := avgAttendancePct,
    lastMeetingDate := lastMeetingDate, nextMeetingDate := nextMeetingDate,
    tasksTotal := tasksTotal, tasksOpen := tasksOpen,
    tasksClosed := tasksClosed, recapsCount := recapsCount,
    actionItemsCount := actionItemsCount,
    daysSinceLastContact := daysSinceLastContact,
    engagementScore := min 100 score4 }

/-- One output row of the consolidated `Account Data Raw` view (the
display-only AI-context text and JSON id-blob columns of the source row are
omitted; the aggregate lists they are rendered from are kept). -/
structure ConsolidatedRow where
  accountName : String
  renewalLink : String
  autoRenewal : String
  renewalDetails : RenewalDetails
  tasks : List TaskRec
  emails : List EmailRec
  meetings : List MeetingRec
  meetingRecaps : List RecapRec
  actionItems : List String
  metrics : Metrics
deriving Repr

/-- The output row built for one account that passed the join, with its
per-account aggregates looked up in the maps (the let-bound lookup maps of
the source are referenced through their builder functions). -/
def consolidatedRowFor (ss : Spreadsheet) (now : Int) (src : SourceData)
    (a : AccountRow) (oppName renewalLink : String) : ConsolidatedRow :=
  let tasks := (jsGet (buildGitHubByAccountMap src.github) a.accountId).getD []
  let emails := (jsGet (buildEmailsByAccountMap src.emails)
    (Cell.strCell a.accountId)).getD []
  let meetings := (jsGet (buildCalendarByAccountMap now src.calendar)
    a.accountId).getD []
  let meetingRecaps := (jsGet (buildMeetingRecapsByAccountMap src.meetingRecaps)
    a.accountId).getD []
  let actionItems := (jsGet (buildActionItemsByAccountMap ss src.actionItems)
    a.accountId).getD []
  { accountName := a.accountName,
    renewalLink := renewalLink,
    autoRenewal := a.autoRenewal,
    renewalDetails := (jsGet (buildRenewalDetailMap src.renewals) oppName).getD
      emptyRenewalDetails,
    tasks := tasks, emails := emails, meetings := meetings,
    meetingRecaps := meetingRecaps, actionItems := actionItems,
    metrics := computeEngagementMetrics now tasks emails meetings
      meetingRecaps actionItems }

/-- The loop body of `buildConsolidatedData`: resolve the account's next
renewal opportunity id to a name, require that name in the renewal map, and
skip (`continue`) the account when either join fails. -/
def consAccStep (ss : Spreadsheet) (now : Int) (src : SourceData)
    (rows : List ConsolidatedRow) (a : AccountRow) : List ConsolidatedRow :=
  match jsGet (buildOppIdToNameMap src.opptys) a.nextRenewalOppId with
  | none => rows
  | some oppName =>
    if oppName = "" then rows
    else
      match jsGet (buildRenewalOpportunityMap src.renewals) oppName with
      | none => rows
      | some renewalLink => rows ++ [consolidatedRowFor ss now src a oppName renewalLink]

/-- `buildConsolidatedData(sourceData)` at instant `now`: one row per account
that passes the two-step join (opportunity id resolves to a name, and that
name is in the renewal feed), sorted by renewal date (missing dates last).
The spreadsheet is also passed because `buildActionItemsByAccountMap`
re-reads the recap sheet from it. -/
def buildConsolidatedData (ss : Spreadsheet) (now : Int) (src : SourceData) :
    List ConsolidatedRow :=
  sortByKeyAsc (fun r => r.renewalDetails.renewalDate.getD farFutureMs)
    (src.accounts.foldl (consAccStep ss now src) [])

/-! ## Recap-to-calendar matcher (`MeetingCalendarMatcher.js`) -/

/-- The in-memory recap record of the matcher (sheet row index is 1-based
with the header at row 1). -/
structure MRecap where
  rowIndex : Nat
  recapId : String
  title : String
  startTime : Option Int
  endTime : Option Int
  accountId : String
deriving DecidableEq, Repr

/-- The in-memory calendar-event record of the matcher. -/
structure MEvent where
  rowIndex : Nat
  eventId : String
  title : String
  startTime : Option Int
  endTime : Option Int
  accountId : String
deriving DecidableEq, Repr

/-- The recap records built from the sheet rows. -/
def recapsFromRows (rows : List RecapRow) : List MRecap :=
  rows.enum.map (fun p =>
    ⟨p.1 + 2, p.2.meetingRecapId, p.2.meetingTitle, p.2.meetingDate,
      p.2.meetingEndTime, p.2.accountId⟩)

/-- The event records built from the sheet rows. -/
def eventsFromRows (rows : List CalendarRow) : List MEvent :=
  rows.enum.map (fun p =>
    ⟨p.1 + 2, p.2.eventId, p.2.title, p.2.startTime, p.2.endTime,
      p.2.accountId⟩)

/-- Civil date (year, month, day) of a day count from the epoch (the
Gregorian-calendar arithmetic behind `getUTCFullYear` / `getUTCMonth` /
`getUTCDate`). -/
def civilFromDays (z0 : Int) : Int × Int × Int :=
  let z := z0 + 719468
  let era := Int.fdiv z 146097
  let doe := z - era * 146097
  let yoe := Int.fdiv
    (doe - Int.fdiv doe 1460 + Int.fdiv doe 36524 - Int.fdiv doe 146096) 365
  let y := yoe + era * 400
  let doy := doe - (365 * yoe + Int.fdiv yoe 4 - Int.fdiv yoe 100)
  let mp := Int.fdiv (5 * doy + 2) 153
  let d := doy - Int.fdiv (153 * mp + 2) 5 + 1
  let m := mp + (if mp < 10 then 3 else -9)
  (y + (if m ≤ 2 then 1 else 0), m, d)

/-- `String(n).padStart(2, '0')` for the month and day parts. -/
def pad2 (n : Int) : String :=
  if n < 10 then "0" ++ toString n else toString n

/-- The matcher's UTC calendar-day string (year, zero-padded month and day
joined by dashes) of a start time; an empty start cell (an invalid JS `Date`)
renders as `NaN-NaN-NaN`. -/
def utcDayStr (t : Option Int) : String :=
  match t with
  | none => "NaN-NaN-NaN"
  | some ms =>
    match civilFromDays (Int.fdiv ms 86400000) with
    | (y, m, d) => toString y ++ "-" ++ pad2 m ++ "-" ++ pad2 d

/-- The candidate filter of the matcher: exact trimmed title equality, same
UTC calendar day, and, when both sides carry a nonempty account id, equal
account ids. -/
def isCandidate (recap : MRecap) (event : MEvent) : Bool :=
  (strTrim event.title = strTrim recap.title) &&
  (utcDayStr event.startTime = utcDayStr recap.startTime) &&
  !(recap.accountId ≠ "" && event.accountId ≠ "" &&
    recap.accountId ≠ event.accountId)

/-- `Math.abs(recap.startTime - event.startTime)`; `none` models the `NaN`
produced when either side is an invalid date. -/
def absStartDiff (recap : MRecap) (event : MEvent) : Option Int :=
  match recap.startTime, event.startTime with
  | some a, some b => some |a - b|
  | _, _ => none

/-- `startDiff < smallestStartDiff` with `NaN` (left `none`) always false and
`Infinity` (right `none`, the initial value) greater than everything. -/
def diffLt : Option Int → Option Int → Bool
  | none, _ => false
  | some _, none => true
  | some d, some s => decide (d < s)

/-- One iteration of the best-match loop: a candidate with strictly smaller
start-time difference replaces the current best. -/
def pickBestStep (recap : MRecap) (acc : Option MEvent × Option Int)
    (event : MEvent) : Option MEvent × Option Int :=
  let startDiff := absStartDiff recap event
  if diffLt startDiff acc.2 then (some event, startDiff) else acc

/-- The best-match loop: first candidate with strictly smaller start-time
difference wins. -/
def pickBest (recap : MRecap) (candidates : List MEvent) :
    Option MEvent × Option Int :=
  candidates.foldl (pickBestStep recap) (none, none)

/-- One emitted match. -/
structure MatchRec where
  recapId : String
  recapRowIndex : Nat
  eventId : String
  eventRowIndex : Nat
  timeDiff : Option Int
deriving DecidableEq, Repr

/-- The match set produced by one run of
`matchMeetingRecapsToCalendarEvents` over the parsed recap and event
records. -/
def matchMeetingRecapsToCalendarEvents (recaps : List MRecap)
    (events : List MEvent) : List MatchRec :=
  recaps.foldl (fun matchList recap =>
    let candidates := events.filter (fun e => isCandidate recap e)
    match pickBest recap candidates with
    | (some bestMatch, smallestStartDiff) =>
      matchList ++ [⟨recap.recapId, recap.rowIndex, bestMatch.eventId,
        bestMatch.rowIndex, smallestStartDiff⟩]
    | (none, _) => matchList) []

/-- The `Calendar Event ID` column of the recap sheet after the write phase:
the column is cleared, then each match writes its event id into its recap
row, so a cell holds the last write targeting it (`none` = cleared).  The
model assumes the cross-reference column exists (the source skips the writes
when the header is missing). -/
def recapColumnAfter (matchList : List MatchRec) (row : Nat) : Option String :=
  ((matchList.filter (fun m => m.recapRowIndex = row)).getLast?).map
    (fun m => m.eventId)

/-- The `Meeting Recap ID` column of the calendar sheet after the write
phase, under the same clear-then-write semantics. -/
def eventColumnAfter (matchList : List MatchRec) (row : Nat) : Option String :=
  ((matchList.filter (fun m => m.eventRowIndex = row)).getLast?).map
    (fun m => m.recapId)

/-! ## Meeting-recap webhook ingestion -/

/-- The `[^\/\?#]` class of the recap-id regex. -/
def segChar (c : Char) : Bool := !(c = '/' || c = '?' || c = '#')

/-- Leftmost match of `/\/engagements\/([^\/\?#]+)/`. -/
def findEngagementsId : List Char → Option (List Char)
  | [] => none
  | c :: cs =>
    if (c :: cs).take 13 = "/engagements/".data ∧
        ((c :: cs).drop 13).takeWhile segChar ≠ [] then
      some (((c :: cs).drop 13).takeWhile segChar)
    else findEngagementsId cs

/-- `extractMeetingRecapId(meetingLink)`: the path segment after
`/engagements/`, falling back to the last nonempty path segment. -/
def extractMeetingRecapId (meetingLink : String) : Option String :=
  if meetingLink = "" then none
  else
    match findEngagementsId meetingLink.data with
    | some captured => some (String.mk captured)
    | none =>
      match (((splitOnChar '/' meetingLink.data).map String.mk).filter
          (fun p => p ≠ "")).getLast? with
      | some p => some p
      | none => none

/-- One entry of `actionItems.myItems` / `actionItems.othersItems`. -/
structure ActionItemPayload where
  actionItemTitle : String
  actionItemDescription : String
  priority : String
deriving DecidableEq, Repr

/-- The `meetingInfo` object of the webhook payload. -/
structure MeetingInfo where
  title : String
  startTime : Option Int
  endTime : Option Int
  meetingLink : String
  meetingUrl : String
deriving DecidableEq, Repr

/-- The parsed webhook JSON body. -/
structure WebhookPayload where
  meetingInfo : Option MeetingInfo
  companyName : String
  actualAttendees : List String
  invitedAttendees : List String
  allNames : List String
  myItems : List ActionItemPayload
  othersItems : List ActionItemPayload
  summary : String
deriving Repr

/-- `isMeetingRecapDuplicate(meetingRecapId)`: does any stored recap row
carry this id (false when the sheet is missing or empty). -/
def isMeetingRecapDuplicate (meetingRecapId : String) (ss : Spreadsheet) :
    Bool :=
  match ss.meetingRecaps with
  | none => false
  | some rows => rows.any (fun r => r.meetingRecapId = meetingRecapId)

/-- The first-match-wins account resolution over the external attendee
emails. -/
def firstResolvedAccount (emails : List String)
    (domainToAccountMap : List (String × AccountInfo))
    (accountMap : List (String × OppAccountInfo)) : Option FullAccountInfo :=
  match emails with
  | [] => none
  | e :: rest =>
    match findAccountByEmailCached e domainToAccountMap accountMap with
    | some info => some info
    | none => firstResolvedAccount rest domainToAccountMap accountMap

/-- `flattenWebhookMeetingRecap(payload, meetingRecapId)`: the stored recap
row.  Attendees are deduplicated, the internal domain is excluded, and the
account is resolved first-match-wins through the cached domain lookup.  The
derived display fields (duration text, joined attendee strings, counts) are
omitted from the row model. -/
def flattenWebhookMeetingRecap (ss : Spreadsheet) (payload : WebhookPayload)
    (meetingRecapId : String) : RecapRow :=
  let mi := payload.meetingInfo.getD ⟨"", none, none, "", ""⟩
  let allAttendees := (payload.actualAttendees ++ payload.invitedAttendees).foldl
    jsSetAdd []
  let externalEmails := allAttendees.filter (fun email =>
    decide (email ≠ "") && !(containsSub (strLower email) "observepoint.com"))
  let accountInfo := firstResolvedAccount externalEmails
    (buildDomainToAccountMap ss) (buildAccountMap ss)
  { meetingRecapId := meetingRecapId,
    meetingTitle := mi.title,
    meetingDate := mi.startTime,
    meetingEndTime := mi.endTime,
    accountId := (accountInfo.map (fun a => a.accountId)).getD "",
    accountName := (accountInfo.map (fun a => a.accountName)).getD "",
    summary := payload.summary,
    calendarEventId := "" }

/-- The webhook processing result object (`action` / `reason` /
`meetingRecapId`). -/
structure WebhookResult where
  action : String
  reason : Option String
  meetingRecapId : String
deriving DecidableEq, Repr

/-- `processMeetingRecapWebhook(payload)`: validate, extract the recap id,
skip on duplicate, otherwise append the flattened recap row and its
action-item child rows.  The best-effort follow-up steps (calendar matching,
issue sync) are wrapped in try/catch in the source and add or remove no recap
row, so they are elided from the state transition. -/
def processMeetingRecapWebhook (ss : Spreadsheet) (payload : WebhookPayload) :
    Except String (WebhookResult × Spreadsheet) :=
  match payload.meetingInfo with
  | none => .error "Invalid payload: missing meetingInfo object"
  | some mi =>
    match extractMeetingRecapId mi.meetingLink with
    | none => .error "Could not extract meeting recap ID from meetingLink"
    | some meetingRecapId =>
      if isMeetingRecapDuplicate meetingRecapId ss then
        .ok (⟨"skipped", some "duplicate", meetingRecapId⟩, ss)
      else
        let recap := flattenWebhookMeetingRecap ss payload meetingRecapId
        let ss1 := { ss with
          meetingRecaps := some ((ss.meetingRecaps.getD []) ++ [recap]) }
        let myRows := payload.myItems.enum.map (fun p =>
          (⟨meetingRecapId, toString p.1, p.2.actionItemTitle,
            p.2.actionItemDescription, p.2.priority⟩ : ActionItemRow))
        let ss2 := { ss1 with
          actionItems := some ((ss1.actionItems.getD []) ++ myRows) }
        .ok (⟨"created", none, meetingRecapId⟩, ss2)

/-- Concrete mapping state for the case-insensitivity witness. -/
def ssC7 : Spreadsheet :=
  ⟨none, none, none, none, none, none, none, none,
    some [⟨"A1", "Acme One", "x.com"⟩]⟩

/-! ## C9: cached versus uncached domain resolution -/

/-- A mapping table listing the same domain on two rows: the uncached scan
returns the first row, the cached map keeps the last insertion. -/
def ssC9 : Spreadsheet :=
  ⟨none, none, none, none, none, none, none, none,
    some [⟨"A1", "One", "x.com"⟩, ⟨"A2", "Two", "x.com"⟩]⟩

/-- A mapping table with pairwise-disjoint domain lists. -/
def ssC9w : Spreadsheet :=
  ⟨none, none, none, none, none, none, none, none,
    some [⟨"A1", "One", "x.com"⟩, ⟨"A2", "Two", "y.com"⟩]⟩

/-! ## C1: the consolidated view contains exactly the accounts whose join
chain succeeds -/

/-- The spec's Acme scenario: the renewal feed row for
`2026 - REN - Acme`. -/
def renewalAcme : RenewalRow :=
  ⟨"=HYPERLINK(\"https://sf.example/OPP1\", \"2026 - REN - Acme\")", none,
    "", "", "", "", "", "", "", "", "", "", "", ""⟩

/-- The spec's Acme scenario source data: one account `Acme Corp` whose next
renewal opportunity id `OPP1` resolves to the active name. -/
def srcC1 : SourceData :=
  ⟨[⟨"ACC1", "Acme Corp", "OPP1", ""⟩], [⟨"OPP1", "2026 - REN - Acme"⟩],
    [renewalAcme], [], [], [], [], []⟩

/-- The spreadsheet backing the Acme scenario. -/
def ssC1 : Spreadsheet :=
  ⟨some [⟨"ACC1", "Acme Corp", "OPP1", ""⟩],
    some [⟨"OPP1", "2026 - REN - Acme"⟩], some [renewalAcme],
    none, none, none, none, none, none⟩

/-! ## C5: the engagement score is the capped sum of five threshold bands

The band tables below restate the spec's rule table; the claim theorem
relates `computeEngagementMetrics` to their capped sum. -/

/-- Recency band of the spec's rule table. -/
def recencyBand : Option Int → Int
  | none => 0
  | some days =>
    if days ≤ 7 then 40
    else if days ≤ 14 then 35
    else if days ≤ 30 then 25
    else if days ≤ 60 then 15
    else if days ≤ 90 then 8
    else if days ≤ 180 then 3
    else 0

/-- Email-volume band (trailing 90 days). -/
def emailVolumeBand (emails90d : Int) : Int :=
  if 10 ≤ emails90d then 20
  else if 5 ≤ emails90d then 12
  else if 1 ≤ emails90d then 6
  else 0

/-- Meeting-volume band (trailing 30 days). -/
def meetingVolumeBand (meetings30d : Int) : Int :=
  if 3 ≤ meetings30d then 20
  else if 2 ≤ meetings30d then 15
  else if 1 ≤ meetings30d then 10
  else 0

/-- Future-meeting band. -/
def futureMeetingBand (meetingsFuture : Int) : Int :=
  if 0 < meetingsFuture then 10 else 0

/-- Open-tasks band. -/
def openTasksBand (tasksOpen : Int) : Int :=
  if 5 ≤ tasksOpen then 10
  else if 3 ≤ tasksOpen then 7
  else if 1 ≤ tasksOpen then 4
  else 0

/-- The latest of a list of instants (`none` for an empty list). -/
def latestTime : List Int → Option Int
  | [] => none
  | t :: ts =>
    match latestTime ts with
    | none => some t
    | some m => some (max t m)

/-- Maximum of two optional instants. -/
def omax : Option Int → Option Int → Option Int
  | none, y => y
  | some a, none => some a
  | some a, some b => some (max a b)

/-- One recent inbound email for the C5 witness (2023-12-30T10:00Z). -/
def emailsC5 : List EmailRec := [⟨"m1", some 1703930400000, false, "s", "b"⟩]

/-- One past meeting without attendee data for the C5 witness. -/
def meetingsC5 : List MeetingRec := [⟨"E1", some 1703844000000, 0, 0⟩]

/-- One open task for the C5 witness. -/
def tasksC5 : List TaskRec := [⟨"T1", "OPEN", "Ready", "Do"⟩]

/-! ## C10: email rows enter the aggregation only with a Salesforce-id-shaped
account id -/

/-- An email row whose `Account ID` cell holds a name-like string. -/
def emailRowName : EmailRow :=
  ⟨Cell.strCell "Acme Corp", "m1", some 1000, "a@x.com", "x.com", "Hi", "Body"⟩

/-- An email row with a Salesforce-id-shaped account id. -/
def emailRow001 : EmailRow :=
  ⟨Cell.strCell "001ABC", "m2", some 2000, "b@x.com", "x.com", "Re", "Body2"⟩

/-! ## C2, C3, C6: the recap-calendar matcher -/

/-- `x` is a defined difference no larger than `y` (with `none` on the right
standing for the initial `Infinity`). -/
def ole (x y : Option Int) : Prop :=
  match y with
  | none => True
  | some b => ∃ a, x = some a ∧ a ≤ b

/-- Two recaps with the same title and day competing for the single matching
event: the source tracks no consumed events. -/
def recapsC3 : List MRecap :=
  [⟨2, "R1", "Sync", some 1704103200000, none, ""⟩,
    ⟨3, "R2", "Sync", some 1704106800000, none, ""⟩]

/-- The single `Sync` calendar event of that day. -/
def eventsC3 : List MEvent := [⟨2, "E1", "Sync", some 1704103200000, none, ""⟩]

/-- Two recaps with the same title and day competing for one event: the
write phase then leaves the two cross-reference columns inconsistent. -/
def recapsC6 : List MRecap :=
  [⟨2, "R1", "Standup", some 1704103200000, none, ""⟩,
    ⟨3, "R2", "Standup", some 1704106800000, none, ""⟩]

/-- The single `Standup` calendar event of that day. -/
def eventsC6 : List MEvent :=
  [⟨2, "E1", "Standup", some 1704103200000, none, ""⟩]

/-- Recaps for the C6 amended witness: distinct titles, disjoint events. -/
def recapsC6w : List MRecap :=
  [⟨2, "R1", "Kickoff", some 1704103200000, none, ""⟩,
    ⟨3, "R2", "Review", some 1704106800000, none, ""⟩]

/-- Events for the C6 amended witness. -/
def eventsC6w : List MEvent :=
  [⟨2, "E1", "Kickoff", some 1704103200000, none, ""⟩,
    ⟨3, "E2", "Review", some 1704106800000, none, ""⟩]

/-- Meeting info for the duplicate-delivery witness. -/
def miC4 : MeetingInfo :=
  ⟨"Weekly Sync", some 1704103200000, some 1704106800000,
    "https://app.askelephant.ai/w/engagements/ngmt_01ABC", ""⟩

/-- Webhook payload for the duplicate-delivery witness. -/
def payloadC4 : WebhookPayload :=
  ⟨some miC4, "Acme", [], [], [], [], [], "Summary."⟩

/-- Empty spreadsheet state for the duplicate-delivery witness. -/
def ssC4 : Spreadsheet :=
  ⟨none, none, none, none, none, none, none, none, none⟩

/-- The state after the first (successful) delivery of the witness payload. -/
def ss1C4 : Spreadsheet :=
  match processMeetingRecapWebhook ssC4 payloadC4 with
  | .ok (_, s) => s
  | .error _ => ssC4

theorem toNat_lowChar (c : Char) (h : 65 ≤ c.toNat ∧ c.toNat ≤ 90) :
    (lowChar c).toNat = c.toNat + 32 := by
  simp only [lowChar, dif_pos h]
  rfl

theorem lowChar_fix (c : Char) (h : ¬(65 ≤ c.toNat ∧ c.toNat ≤ 90)) :
    lowChar c = c := by
  simp only [lowChar, dif_neg h]

theorem lowChar_idem (c : Char) : lowChar (lowChar c) = lowChar c := by
  by_cases h : 65 ≤ c.toNat ∧ c.toNat ≤ 90
  · have h1 := toNat_lowChar c h
    exact lowChar_fix _ (by omega)
  · rw [lowChar_fix c h]
    exact lowChar_fix c h

/-- Lower-casing can only reach a character that is neither an ASCII upper nor
lower letter if the source character already was that character. -/
theorem lowChar_eq_fix_iff (c d : Char) (hd : ¬(65 ≤ d.toNat ∧ d.toNat ≤ 90))
    (hd2 : ¬(97 ≤ d.toNat ∧ d.toNat ≤ 122)) : (lowChar c = d ↔ c = d) := by
  constructor
  · intro h
    by_cases hc : 65 ≤ c.toNat ∧ c.toNat ≤ 90
    · exfalso
      have h1 := toNat_lowChar c hc
      rw [h] at h1
      omega
    · rwa [lowChar_fix c hc] at h
  · intro h
    subst h
    exact lowChar_fix c hd

theorem decide_lowChar_eq (c d : Char) (hd : ¬(65 ≤ d.toNat ∧ d.toNat ≤ 90))
    (hd2 : ¬(97 ≤ d.toNat ∧ d.toNat ≤ 122)) :
    (decide (lowChar c = d)) = decide (c = d) :=
  decide_eq_decide.mpr (lowChar_eq_fix_iff c d hd hd2)

theorem lowStr_idem (l : List Char) : lowStr (lowStr l) = lowStr l := by
  simp only [lowStr, List.map_map]
  exact List.map_congr_left (fun c _ => lowChar_idem c)

theorem lowStr_nil_iff (l : List Char) : lowStr l = [] ↔ l = [] := by
  simp [lowStr]

theorem jsGet_nil {K V : Type} [DecidableEq K] (k : K) :
    jsGet ([] : List (K × V)) k = none := rfl

theorem jsGet_cons {K V : Type} [DecidableEq K] (p : K × V) (m : List (K × V))
    (k : K) : jsGet (p :: m) k = if p.1 = k then some p.2 else jsGet m k := by
  by_cases h : p.1 = k
  · simp [jsGet, List.find?, h]
  · simp [jsGet, List.find?, h]

theorem jsGet_append {K V : Type} [DecidableEq K] (m1 m2 : List (K × V))
    (k : K) : jsGet (m1 ++ m2) k =
      match jsGet m1 k with
      | some v => some v
      | none => jsGet m2 k := by
  induction m1 with
  | nil => simp [jsGet_nil]
  | cons p m ih =>
    rw [List.cons_append, jsGet_cons, jsGet_cons]
    by_cases h : p.1 = k
    · simp [h]
    · simp [h, ih]

theorem mem_sortByKeyDesc {α : Type} (key : α → Int) (l : List α) (x : α) :
    x ∈ sortByKeyDesc key l ↔ x ∈ l :=
  (List.perm_insertionSort _ l).mem_iff

theorem mem_sortByKeyAsc {α : Type} (key : α → Int) (l : List α) (x : α) :
    x ∈ sortByKeyAsc key l ↔ x ∈ l :=
  (List.perm_insertionSort _ l).mem_iff

/-- The head of a descending sort has the largest key. -/
theorem head_sortByKeyDesc_max {α : Type} (key : α → Int) (l : List α)
    (h : α) (t : List α) (heq : sortByKeyDesc key l = h :: t) :
    ∀ x ∈ l, key x ≤ key h := by
  intro x hx
  have hs : List.Sorted (fun a b => key b ≤ key a) (sortByKeyDesc key l) :=
    List.sorted_insertionSort _ l
  have hmem : x ∈ sortByKeyDesc key l := (mem_sortByKeyDesc key l x).mpr hx
  rw [heq] at hs hmem
  rcases List.mem_cons.mp hmem with h1 | h1
  · subst h1; exact le_refl _
  · exact (List.sorted_cons.mp hs).1 x h1

/-! ### Case-invariance of the domain extraction -/

theorem toNat_inj_char (c d : Char) (h : c.toNat = d.toNat) : c = d :=
  Char.eq_of_val_eq (UInt32.eq_of_toBitVec_eq (BitVec.eq_of_toNat_eq h))

theorem char_eq_iff_toNat (c d : Char) : c = d ↔ c.toNat = d.toNat :=
  ⟨fun h => by rw [h], toNat_inj_char c d⟩

theorem isSpaceJs_lowChar (c : Char) : isSpaceJs (lowChar c) = isSpaceJs c := by
  simp only [isSpaceJs]
  rw [decide_lowChar_eq c ' ' (by decide) (by decide),
    decide_lowChar_eq c '\t' (by decide) (by decide),
    decide_lowChar_eq c '\n' (by decide) (by decide),
    decide_lowChar_eq c '\r' (by decide) (by decide),
    decide_lowChar_eq c '\x0b' (by decide) (by decide),
    decide_lowChar_eq c '\x0c' (by decide) (by decide)]

theorem notGt_lowChar (c : Char) : notGt (lowChar c) = notGt c := by
  simp only [notGt]
  rw [decide_lowChar_eq c '>' (by decide) (by decide)]

theorem classC_lowChar (c : Char) : classC (lowChar c) = classC c := by
  simp only [classC]
  rw [isSpaceJs_lowChar, decide_lowChar_eq c '<' (by decide) (by decide),
    decide_lowChar_eq c '>' (by decide) (by decide),
    decide_lowChar_eq c '"' (by decide) (by decide)]

theorem classD_lowChar (c : Char) : classD (lowChar c) = classD c := by
  simp only [classD]
  rw [classC_lowChar, decide_lowChar_eq c ',' (by decide) (by decide)]

theorem domChar_lowChar (c : Char) : domChar (lowChar c) = domChar c := by
  have e1 : ('.').toNat = 46 := rfl
  have e2 : ('-').toNat = 45 := rfl
  have hdot : ∀ x : Char, (x = '.') ↔ x.toNat = 46 := fun x => by
    rw [char_eq_iff_toNat, e1]
  have hdash : ∀ x : Char, (x = '-') ↔ x.toNat = 45 := fun x => by
    rw [char_eq_iff_toNat, e2]
  by_cases h : 65 ≤ c.toNat ∧ c.toNat ≤ 90
  · have h1 := toNat_lowChar c h
    rw [Bool.eq_iff_iff]
    simp only [domChar, Bool.or_eq_true, Bool.and_eq_true, decide_eq_true_eq,
      hdot, hdash, h1]
    omega
  · rw [lowChar_fix c h]

theorem at_lowChar_iff (c : Char) : lowChar c = '@' ↔ c = '@' :=
  lowChar_eq_fix_iff c '@' (by decide) (by decide)

theorem takeWhile_lowStr (P : Char → Bool) (hP : ∀ c, P (lowChar c) = P c)
    (l : List Char) : (lowStr l).takeWhile P = lowStr (l.takeWhile P) := by
  have hcomp : P ∘ lowChar = P := funext hP
  simp only [lowStr]
  rw [List.takeWhile_map, hcomp]

theorem dropWhile_lowStr (P : Char → Bool) (hP : ∀ c, P (lowChar c) = P c)
    (l : List Char) : (lowStr l).dropWhile P = lowStr (l.dropWhile P) := by
  have hcomp : P ∘ lowChar = P := funext hP
  simp only [lowStr]
  rw [List.dropWhile_map, hcomp]

theorem mem_at_lowStr (l : List Char) : '@' ∈ lowStr l ↔ '@' ∈ l := by
  simp only [lowStr, List.mem_map]
  constructor
  · rintro ⟨a, ha, he⟩
    rwa [(at_lowChar_iff a).mp he] at ha
  · intro ha
    exact ⟨'@', ha, by decide⟩

theorem getElem?_at_lowStr (l : List Char) (i : Nat) :
    ((lowStr l)[i]? = some '@') ↔ (l[i]? = some '@') := by
  simp only [lowStr, List.getElem?_map]
  cases h : l[i]? with
  | none => simp
  | some c => simp [at_lowChar_iff c]

theorem lowStr_drop (l : List Char) (n : Nat) :
    (lowStr l).drop n = lowStr (l.drop n) := by
  simp [lowStr, List.map_drop]

theorem lowStr_take (l : List Char) (n : Nat) :
    (lowStr l).take n = lowStr (l.take n) := by
  simp [lowStr, List.map_take]

theorem lowStr_dropLast (l : List Char) :
    (lowStr l).dropLast = lowStr l.dropLast := by
  simp [lowStr, List.map_dropLast]

theorem tryAlt1_lowStr (s : List Char) :
    tryAlt1 (lowStr s) = (tryAlt1 s).map lowStr := by
  cases s with
  | nil => rfl
  | cons c cs =>
    show tryAlt1 (lowChar c :: lowStr cs) = _
    simp only [tryAlt1]
    by_cases hc : c = '<'
    · rw [if_pos ((lowChar_eq_fix_iff c '<' (by decide) (by decide)).mpr hc),
        if_pos hc]
      rw [takeWhile_lowStr notGt notGt_lowChar, dropWhile_lowStr notGt notGt_lowChar]
      have hiff : (lowStr (cs.dropWhile notGt) ≠ [] ∧
          '@' ∈ ((lowStr (cs.takeWhile notGt)).drop 1).dropLast) ↔
          (cs.dropWhile notGt ≠ [] ∧ '@' ∈ ((cs.takeWhile notGt).drop 1).dropLast) := by
        rw [lowStr_drop, lowStr_dropLast, mem_at_lowStr]
        constructor
        · rintro ⟨h1, h2⟩
          exact ⟨fun hn => h1 (by rw [hn]; rfl), h2⟩
        · rintro ⟨h1, h2⟩
          exact ⟨by simpa [lowStr_nil_iff] using h1, h2⟩
      by_cases hcond : cs.dropWhile notGt ≠ [] ∧
          '@' ∈ ((cs.takeWhile notGt).drop 1).dropLast
      · rw [if_pos (hiff.mpr hcond), if_pos hcond]
        rfl
      · rw [if_neg (fun hx => hcond (hiff.mp hx)), if_neg hcond]
        rfl
    · rw [if_neg (fun hh => hc ((lowChar_eq_fix_iff c '<' (by decide) (by decide)).mp hh)),
        if_neg hc]
      rfl

theorem bestAtSplit_lowStr (rc : List Char) (n : Nat) :
    bestAtSplit (lowStr rc) n = bestAtSplit rc n := by
  induction n with
  | zero => rfl
  | succ k ih =>
    rw [bestAtSplit, bestAtSplit]
    have hiff : ((lowStr rc)[k + 1]? = some '@' ∧
        ((lowStr rc).drop (k + 2)).takeWhile classD ≠ []) ↔
        (rc[k + 1]? = some '@' ∧ (rc.drop (k + 2)).takeWhile classD ≠ []) := by
      rw [lowStr_drop, takeWhile_lowStr classD classD_lowChar]
      constructor
      · rintro ⟨h1, h2⟩
        exact ⟨(getElem?_at_lowStr rc (k + 1)).mp h1,
          by simpa [lowStr_nil_iff] using h2⟩
      · rintro ⟨h1, h2⟩
        exact ⟨(getElem?_at_lowStr rc (k + 1)).mpr h1, fun hn => h2 (by
          rwa [lowStr_nil_iff] at hn)⟩
    by_cases hcond : rc[k + 1]? = some '@' ∧ (rc.drop (k + 2)).takeWhile classD ≠ []
    · rw [if_pos (hiff.mpr hcond), if_pos hcond]
    · rw [if_neg (fun hx => hcond (hiff.mp hx)), if_neg hcond]
      exact ih

theorem tryAlt2_lowStr (s : List Char) :
    tryAlt2 (lowStr s) = (tryAlt2 s).map lowStr := by
  rw [tryAlt2, tryAlt2]
  rw [takeWhile_lowStr classC classC_lowChar]
  have hlen : (lowStr (s.takeWhile classC)).length = (s.takeWhile classC).length := by
    simp [lowStr]
  rw [hlen, bestAtSplit_lowStr]
  cases hb : bestAtSplit (s.takeWhile classC) (s.takeWhile classC).length with
  | none => rfl
  | some k =>
    simp only [Option.map_some]
    congr 1
    rw [lowStr_take, lowStr_drop, takeWhile_lowStr classD classD_lowChar]
    simp only [lowStr, List.map_append, List.map_cons]
    rfl

theorem findAddr_lowStr (s : List Char) :
    findAddr (lowStr s) = (findAddr s).map lowStr := by
  induction s with
  | nil => rfl
  | cons c cs ih =>
    show findAddr (lowChar c :: lowStr cs) = _
    rw [findAddr, findAddr]
    have h1 : tryAlt1 (lowChar c :: lowStr cs) = (tryAlt1 (c :: cs)).map lowStr :=
      tryAlt1_lowStr (c :: cs)
    have h2 : tryAlt2 (lowChar c :: lowStr cs) = (tryAlt2 (c :: cs)).map lowStr :=
      tryAlt2_lowStr (c :: cs)
    rw [h1, h2]
    cases tryAlt1 (c :: cs) with
    | some r => rfl
    | none =>
      cases tryAlt2 (c :: cs) with
      | some r => rfl
      | none => exact ih

theorem findDomain_lowStr (l : List Char) :
    findDomain (lowStr l) = lowStr (findDomain l) := by
  induction l with
  | nil => rfl
  | cons c cs ih =>
    show findDomain (lowChar c :: lowStr cs) = _
    rw [findDomain, findDomain]
    by_cases hcond : c = '@' ∧ cs.takeWhile domChar ≠ []
    · rw [if_pos hcond, if_pos]
      · rw [takeWhile_lowStr domChar domChar_lowChar]
      · constructor
        · exact (at_lowChar_iff c).mpr hcond.1
        · rw [takeWhile_lowStr domChar domChar_lowChar]
          simpa [lowStr_nil_iff] using hcond.2
    · rw [if_neg hcond, if_neg]
      · exact ih
      · intro hcond2
        apply hcond
        refine ⟨(at_lowChar_iff c).mp hcond2.1, ?_⟩
        have := hcond2.2
        rw [takeWhile_lowStr domChar domChar_lowChar] at this
        simpa [lowStr_nil_iff] using this

theorem lowStr_reverse (l : List Char) : (lowStr l).reverse = lowStr l.reverse := by
  simp [lowStr]

theorem jsTrim_lowStr (l : List Char) : jsTrim (lowStr l) = lowStr (jsTrim l) := by
  rw [jsTrim, jsTrim]
  rw [dropWhile_lowStr isSpaceJs isSpaceJs_lowChar, lowStr_reverse,
    dropWhile_lowStr isSpaceJs isSpaceJs_lowChar, lowStr_reverse]

/-- The domain returned by `getEmailDomainForAccount` is unchanged when the
input is lower-cased: the final `toLowerCase` makes the result canonical. -/
theorem getEmailDomainForAccount_strLower (s : String) :
    getEmailDomainForAccount (strLower s) = getEmailDomainForAccount s := by
  rw [getEmailDomainForAccount, getEmailDomainForAccount]
  have hdata : (strLower s).data = lowStr s.data := rfl
  rw [hdata, findAddr_lowStr]
  cases findAddr s.data with
  | none => rfl
  | some addr =>
    show (if findDomain (lowStr addr) = [] then ""
        else String.mk (jsTrim (lowStr (findDomain (lowStr addr))))) =
      (if findDomain addr = [] then ""
        else String.mk (jsTrim (lowStr (findDomain addr))))
    rw [findDomain_lowStr]
    by_cases hd : findDomain addr = []
    · rw [if_pos (by rw [hd]; rfl), if_pos hd]
    · rw [if_neg (fun hx => hd ((lowStr_nil_iff _).mp hx)), if_neg hd]
      rw [lowStr_idem]

/-! ## Lemmas about JS maps -/

theorem jsGet_map_replace {K V : Type} [DecidableEq K] (m : List (K × V))
    (k k2 : K) (v : V) (h : k2 ≠ k) :
    jsGet (m.map (fun p => if p.1 = k then (k, v) else p)) k2 = jsGet m k2 := by
  induction m with
  | nil => rfl
  | cons p m ih =>
    simp only [List.map_cons]
    by_cases hp : p.1 = k
    · rw [if_pos hp, jsGet_cons, jsGet_cons]
      rw [if_neg (fun he => h he.symm), if_neg (fun he => h (hp ▸ he).symm)]
      exact ih
    · rw [if_neg hp, jsGet_cons, jsGet_cons]
      by_cases hp2 : p.1 = k2
      · rw [if_pos hp2, if_pos hp2]
      · rw [if_neg hp2, if_neg hp2]
        exact ih

theorem jsGet_none_of_not_any {K V : Type} [DecidableEq K]
    (m : List (K × V)) (k : K)
    (h : m.any (fun p => decide (p.1 = k)) = false) : jsGet m k = none := by
  induction m with
  | nil => rfl
  | cons p m ih =>
    simp only [List.any_cons, Bool.or_eq_false_iff] at h
    rw [jsGet_cons, if_neg (by simpa using h.1)]
    exact ih h.2

theorem jsGet_jsSet_self {K V : Type} [DecidableEq K] (m : List (K × V))
    (k : K) (v : V) : jsGet (jsSet m k v) k = some v := by
  rw [jsSet]
  by_cases hany : m.any (fun p => decide (p.1 = k)) = true
  · rw [if_pos hany]
    induction m with
    | nil => simp at hany
    | cons p m ih =>
      simp only [List.map_cons]
      by_cases hp : p.1 = k
      · rw [if_pos hp, jsGet_cons, if_pos rfl]
      · rw [if_neg hp, jsGet_cons, if_neg hp]
        simp only [List.any_cons, Bool.or_eq_true] at hany
        rcases hany with h1 | h1
        · exact absurd (of_decide_eq_true h1) hp
        · exact ih h1
  · rw [if_neg hany]
    rw [jsGet_append, jsGet_none_of_not_any m k ((Bool.not_eq_true _) ▸ hany)]
    rw [jsGet_cons, if_pos rfl]

theorem jsGet_jsSet_ne {K V : Type} [DecidableEq K] (m : List (K × V))
    (k k2 : K) (v : V) (h : k2 ≠ k) :
    jsGet (jsSet m k v) k2 = jsGet m k2 := by
  rw [jsSet]
  by_cases hany : m.any (fun p => decide (p.1 = k)) = true
  · rw [if_pos hany]
    exact jsGet_map_replace m k k2 v h
  · rw [if_neg hany, jsGet_append]
    cases hg : jsGet m k2 with
    | some v2 => rfl
    | none =>
      rw [jsGet_cons, if_neg (fun he => h he.symm)]
      rfl

/-! ## C7: deterministic, case-insensitive account resolution -/

theorem jsGet_buildDomainToAccountMap_empty (ss : Spreadsheet) :
    jsGet (buildDomainToAccountMap ss) "" = none := by
  rw [buildDomainToAccountMap]
  cases ss.mapping with
  | none => rfl
  | some rows =>
    have hinner : ∀ (row : MappingRow) (ds : List String)
        (m : List (String × AccountInfo)), jsGet m "" = none →
        jsGet (ds.foldl (fun m d =>
          if d ≠ "" then jsSet m d (⟨row.accountId, row.accountName⟩ : AccountInfo)
          else m) m) "" = none := by
      intro row ds
      induction ds with
      | nil => intro m h; exact h
      | cons d rest ih =>
        intro m h
        simp only [List.foldl_cons]
        apply ih
        by_cases hd : d ≠ ""
        · rw [if_pos hd, jsGet_jsSet_ne m d "" _ (fun he => hd he.symm)]
          exact h
        · rw [if_neg hd]
          exact h
    have houter : ∀ (rs : List MappingRow) (m0 : List (String × AccountInfo)),
        jsGet m0 "" = none →
        jsGet (rs.foldl (fun m row =>
          if row.domains ≠ "" then
            (normDomains row.domains).foldl (fun m d =>
              if d ≠ "" then
                jsSet m d (⟨row.accountId, row.accountName⟩ : AccountInfo)
              else m) m
          else m) m0) "" = none := by
      intro rs
      induction rs with
      | nil => intro m0 h0; exact h0
      | cons row rest ih =>
        intro m0 h0
        simp only [List.foldl_cons]
        apply ih
        by_cases hd : row.domains ≠ ""
        · rw [if_pos hd]
          exact hinner row (normDomains row.domains) m0 h0
        · rw [if_neg hd]
          exact h0
    exact houter rows [] rfl

/-- C7: for every email whose resolved domain is present in the
domain-to-account mapping, resolution through the cached lookup is
deterministic (same input, same output), succeeds, and is case-insensitive:
two addresses that agree after lower-casing resolve to the same account. -/
theorem c7_resolveAccount_case_insensitive (ss : Spreadsheet) (e1 e2 : String)
    (hcase : strLower e1 = strLower e2)
    (hdom : jsHas (buildDomainToAccountMap ss)
      (getEmailDomainForAccount e1) = true) :
    findAccountByEmailCached e1 (buildDomainToAccountMap ss) (buildAccountMap ss) =
      findAccountByEmailCached e1 (buildDomainToAccountMap ss) (buildAccountMap ss) ∧
    (findAccountByEmailCached e1 (buildDomainToAccountMap ss)
      (buildAccountMap ss)).isSome = true ∧
    findAccountByEmailCached e1 (buildDomainToAccountMap ss) (buildAccountMap ss) =
      findAccountByEmailCached e2 (buildDomainToAccountMap ss) (buildAccountMap ss) := by
  have hdeq : getEmailDomainForAccount e2 = getEmailDomainForAccount e1 := by
    rw [← getEmailDomainForAccount_strLower e2, ← hcase,
      getEmailDomainForAccount_strLower]
  have hne : getEmailDomainForAccount e1 ≠ "" := by
    intro h0
    rw [jsHas, h0, jsGet_buildDomainToAccountMap_empty] at hdom
    simp at hdom
  refine ⟨rfl, ?_, ?_⟩
  · rw [findAccountByEmailCached]
    simp only [if_neg hne]
    rw [jsHas] at hdom
    cases hget : jsGet (buildDomainToAccountMap ss) (getEmailDomainForAccount e1) with
    | none => rw [hget] at hdom; simp at hdom
    | some info => rfl
  · rw [findAccountByEmailCached, findAccountByEmailCached, hdeq]

/-- Witness for C7 at a concrete mapping and the two spec addresses. -/
theorem c7_witness :
    strLower "A@X.COM" = strLower "a@x.com" ∧
    jsHas (buildDomainToAccountMap ssC7)
      (getEmailDomainForAccount "A@X.COM") = true ∧
    findAccountByEmailCached "A@X.COM" (buildDomainToAccountMap ssC7)
      (buildAccountMap ssC7) =
      findAccountByEmailCached "a@x.com" (buildDomainToAccountMap ssC7)
        (buildAccountMap ssC7) :=
  ⟨by decide, by decide,
    (c7_resolveAccount_case_insensitive ssC7 "A@X.COM" "a@x.com" (by decide)
      (by decide)).2.2⟩

/-- C9 counterexample: with the domain `x.com` on two mapping rows,
`findAccountByEmail` resolves `bob@x.com` to the first row's account `A1`
while the cached path resolves it to the last row's account `A2`, so the
claimed equivalence fails. -/
theorem c9_counterexample :
    (findAccountByEmail "bob@x.com" ssC9).map (fun a => a.accountId) =
      some "A1" ∧
    (findAccountByEmailCached "bob@x.com" (buildDomainToAccountMap ssC9)
      (buildAccountMap ssC9)).map (fun a => a.accountId) = some "A2" ∧
    ¬((findAccountByEmail "bob@x.com" ssC9).map (fun a => a.accountId) =
      (findAccountByEmailCached "bob@x.com" (buildDomainToAccountMap ssC9)
        (buildAccountMap ssC9)).map (fun a => a.accountId)) := by
  refine ⟨by decide, by decide, by decide⟩

theorem jsGet_insertDomains (row : MappingRow) (ds : List String)
    (m : List (String × AccountInfo)) (d : String) (hd : d ≠ "") :
    jsGet (ds.foldl (fun m d2 =>
      if d2 ≠ "" then
        jsSet m d2 (⟨row.accountId, row.accountName⟩ : AccountInfo)
      else m) m) d =
    if d ∈ ds then some (⟨row.accountId, row.accountName⟩ : AccountInfo)
    else jsGet m d := by
  induction ds generalizing m with
  | nil => simp
  | cons d2 rest ih =>
    simp only [List.foldl_cons]
    rw [ih]
    by_cases hmem : d ∈ rest
    · rw [if_pos hmem, if_pos (List.mem_cons.mpr (Or.inr hmem))]
    · rw [if_neg hmem]
      by_cases heq : d = d2
      · subst heq
        rw [if_pos hd, jsGet_jsSet_self,
          if_pos (List.mem_cons.mpr (Or.inl rfl))]
      · have hmem2 : ¬(d ∈ d2 :: rest) := fun hc =>
          (List.mem_cons.mp hc).elim heq hmem
        rw [if_neg hmem2]
        by_cases h2 : d2 ≠ ""
        · rw [if_pos h2, jsGet_jsSet_ne _ _ _ _ heq]
        · rw [if_neg h2]

theorem findMappingRowByDomain_none (d : String) (rows : List MappingRow)
    (h : ∀ r ∈ rows, d ∉ normDomains r.domains) :
    findMappingRowByDomain d rows = none := by
  induction rows with
  | nil => rfl
  | cons r rest ih =>
    rw [findMappingRowByDomain,
      if_neg (fun hc => h r (List.mem_cons.mpr (Or.inl rfl)) hc.2)]
    exact ih (fun r2 hr2 => h r2 (List.mem_cons.mpr (Or.inr hr2)))

theorem jsGet_buildDomainToAccountMap_spec (rows : List MappingRow)
    (hdisj : rows.Pairwise (fun r1 r2 =>
      ∀ d ∈ normDomains r1.domains, d ∉ normDomains r2.domains))
    (m0 : List (String × AccountInfo)) (d : String) (hd : d ≠ "") :
    jsGet (rows.foldl (fun m row =>
      if row.domains ≠ "" then
        (normDomains row.domains).foldl (fun m d2 =>
          if d2 ≠ "" then
            jsSet m d2 (⟨row.accountId, row.accountName⟩ : AccountInfo)
          else m) m
      else m) m0) d =
    match findMappingRowByDomain d rows with
    | some row => some (⟨row.accountId, row.accountName⟩ : AccountInfo)
    | none => jsGet m0 d := by
  induction rows generalizing m0 with
  | nil => rfl
  | cons row rest ih =>
    have hd1 := (List.pairwise_cons.mp hdisj).1
    have hrest := (List.pairwise_cons.mp hdisj).2
    simp only [List.foldl_cons]
    rw [ih hrest]
    by_cases hcond : row.domains ≠ "" ∧ d ∈ normDomains row.domains
    · have hnone : findMappingRowByDomain d rest = none :=
        findMappingRowByDomain_none d rest
          (fun r hr => hd1 r hr d hcond.2)
      rw [findMappingRowByDomain, if_pos hcond, hnone]
      rw [if_pos hcond.1, jsGet_insertDomains row _ m0 d hd, if_pos hcond.2]
    · rw [findMappingRowByDomain, if_neg hcond]
      cases hfind : findMappingRowByDomain d rest with
      | some r => rfl
      | none =>
        by_cases hdom2 : row.domains ≠ ""
        · rw [if_pos hdom2, jsGet_insertDomains row _ m0 d hd,
            if_neg (fun hmem => hcond ⟨hdom2, hmem⟩)]
        · rw [if_neg hdom2]

/-- C9 amended: when every normalised domain appears on at most one mapping
row (the rows are pairwise domain-disjoint), the uncached and cached
resolution paths agree on the resolved account id for every email. -/
theorem c9_amended_cached_uncached_equiv (ss : Spreadsheet)
    (rows : List MappingRow) (hmap : ss.mapping = some rows)
    (hdisj : rows.Pairwise (fun r1 r2 =>
      ∀ d ∈ normDomains r1.domains, d ∉ normDomains r2.domains))
    (email : String) :
    (findAccountByEmail email ss).map (fun a => a.accountId) =
      (findAccountByEmailCached email (buildDomainToAccountMap ss)
        (buildAccountMap ss)).map (fun a => a.accountId) := by
  simp only [findAccountByEmail, findAccountByEmailCached,
    buildDomainToAccountMap, hmap]
  by_cases hd : getEmailDomainForAccount email = ""
  · rw [if_pos hd, if_pos hd]
  · rw [if_neg hd, if_neg hd,
      jsGet_buildDomainToAccountMap_spec rows hdisj [] _ hd]
    cases hfind : findMappingRowByDomain (getEmailDomainForAccount email) rows with
    | none => rfl
    | some row => rfl

/-- Witness for the amended C9 theorem at a concrete disjoint mapping. -/
theorem c9_amended_witness :
    ssC9w.mapping = some [⟨"A1", "One", "x.com"⟩, ⟨"A2", "Two", "y.com"⟩] ∧
    (findAccountByEmail "bob@x.com" ssC9w).map (fun a => a.accountId) =
      (findAccountByEmailCached "bob@x.com" (buildDomainToAccountMap ssC9w)
        (buildAccountMap ssC9w)).map (fun a => a.accountId) :=
  ⟨rfl, c9_amended_cached_uncached_equiv ssC9w
    [⟨"A1", "One", "x.com"⟩, ⟨"A2", "Two", "y.com"⟩] rfl (by decide)
    "bob@x.com"⟩

theorem consFoldl_mono (ss : Spreadsheet) (now : Int) (src : SourceData)
    (accounts : List AccountRow) :
    ∀ (rows0 : List ConsolidatedRow) (r : ConsolidatedRow), r ∈ rows0 →
      r ∈ accounts.foldl (consAccStep ss now src) rows0 := by
  induction accounts with
  | nil => intro rows0 r h; exact h
  | cons b rest ih =>
    intro rows0 r h
    simp only [List.foldl_cons]
    apply ih
    unfold consAccStep
    split
    · exact h
    · split
      · exact h
      · split
        · exact h
        · exact List.mem_append.mpr (Or.inl h)

theorem consFoldl_mem_of_pass (ss : Spreadsheet) (now : Int) (src : SourceData)
    (accounts : List AccountRow) (a : AccountRow) (oppName renewalLink : String)
    (hget : jsGet (buildOppIdToNameMap src.opptys) a.nextRenewalOppId =
      some oppName)
    (hn : oppName ≠ "")
    (hren : jsGet (buildRenewalOpportunityMap src.renewals) oppName =
      some renewalLink) :
    ∀ rows0, a ∈ accounts →
      consolidatedRowFor ss now src a oppName renewalLink ∈
        accounts.foldl (consAccStep ss now src) rows0 := by
  induction accounts with
  | nil => intro rows0 h; exact absurd h (List.not_mem_nil _)
  | cons b rest ih =>
    intro rows0 hmem
    simp only [List.foldl_cons]
    rcases List.mem_cons.mp hmem with h1 | h1
    · apply consFoldl_mono
      rw [← h1]
      unfold consAccStep
      simp only [hget, if_neg hn, hren]
      exact List.mem_append.mpr (Or.inr (List.mem_singleton.mpr rfl))
    · exact ih (consAccStep ss now src rows0 b) h1

theorem consFoldl_mem_cases (ss : Spreadsheet) (now : Int) (src : SourceData)
    (accounts : List AccountRow) :
    ∀ (rows0 : List ConsolidatedRow) (r : ConsolidatedRow),
      r ∈ accounts.foldl (consAccStep ss now src) rows0 →
      r ∈ rows0 ∨ ∃ b ∈ accounts, ∃ oppName renewalLink,
        jsGet (buildOppIdToNameMap src.opptys) b.nextRenewalOppId =
          some oppName ∧ oppName ≠ "" ∧
        jsGet (buildRenewalOpportunityMap src.renewals) oppName =
          some renewalLink ∧
        r = consolidatedRowFor ss now src b oppName renewalLink := by
  induction accounts with
  | nil => intro rows0 r h; exact Or.inl h
  | cons b rest ih =>
    intro rows0 r h
    simp only [List.foldl_cons] at h
    rcases ih _ r h with h1 | ⟨c, hc, n, link, h2⟩
    · revert h1
      unfold consAccStep
      split
      · exact fun h1 => Or.inl h1
      · rename_i n hget
        split
        · exact fun h1 => Or.inl h1
        · rename_i hn
          split
          · exact fun h1 => Or.inl h1
          · rename_i link hren
            intro h1
            rcases List.mem_append.mp h1 with h2 | h2
            · exact Or.inl h2
            · exact Or.inr ⟨b, List.mem_cons.mpr (Or.inl rfl), n, link, hget,
                hn, hren, List.mem_singleton.mp h2⟩
    · exact Or.inr ⟨c, List.mem_cons.mpr (Or.inr hc), n, link, h2⟩

theorem jsGet_buildRenewalOpportunityMap_none (renewals : List RenewalRow)
    (n : String)
    (h : ∀ row ∈ renewals, extractOpportunityNameFromLink row.linkCell ≠ some n) :
    jsGet (buildRenewalOpportunityMap renewals) n = none := by
  rw [buildRenewalOpportunityMap]
  have aux : ∀ (rows : List RenewalRow) (m0 : List (String × String)),
      jsGet m0 n = none →
      (∀ row ∈ rows, extractOpportunityNameFromLink row.linkCell ≠ some n) →
      jsGet (rows.foldl (fun m row =>
        if row.linkCell ≠ "" then
          match extractOpportunityNameFromLink row.linkCell with
          | some oppName => if oppName ≠ "" then jsSet m oppName row.linkCell else m
          | none => m
        else m) m0) n = none := by
    intro rows
    induction rows with
    | nil => intro m0 h0 _; exact h0
    | cons row rest ih =>
      intro m0 h0 hall
      simp only [List.foldl_cons]
      apply ih
      · by_cases hl : row.linkCell ≠ ""
        · rw [if_pos hl]
          cases hx : extractOpportunityNameFromLink row.linkCell with
          | none => exact h0
          | some oppName =>
            show jsGet (if oppName ≠ "" then jsSet m0 oppName row.linkCell
              else m0) n = none
            by_cases ho : oppName ≠ ""
            · rw [if_pos ho, jsGet_jsSet_ne _ _ _ _ (fun he => by
                apply hall row (List.mem_cons.mpr (Or.inl rfl))
                rw [hx, he])]
              exact h0
            · rw [if_neg ho]; exact h0
        · rw [if_neg hl]; exact h0
      · exact fun r2 hr2 => hall r2 (List.mem_cons.mpr (Or.inr hr2))
  exact aux renewals [] rfl h

/-- C1: an account appears in the consolidated view exactly when its stored
next-renewal-opportunity id resolves (via the opportunity table) to a
nonempty name that the renewal feed lists; and removing every renewal feed
row carrying that name removes the account from the rebuilt view while
leaving the email, calendar and task source tables untouched.  Account names
are assumed distinct so that a view row identifies its account. -/
theorem c1_consolidated_view_join (ss : Spreadsheet) (now : Int)
    (src : SourceData)
    (hnames : (src.accounts.map (fun a => a.accountName)).Nodup)
    (a : AccountRow) (ha : a ∈ src.accounts) :
    ((∃ r ∈ buildConsolidatedData ss now src, r.accountName = a.accountName) ↔
      ∃ oppName renewalLink,
        jsGet (buildOppIdToNameMap src.opptys) a.nextRenewalOppId =
          some oppName ∧ oppName ≠ "" ∧
        jsGet (buildRenewalOpportunityMap src.renewals) oppName =
          some renewalLink) ∧
    (∀ oppName,
      jsGet (buildOppIdToNameMap src.opptys) a.nextRenewalOppId =
        some oppName →
      (¬∃ r ∈ buildConsolidatedData ss now
          { src with renewals := src.renewals.filter (fun row =>
            decide (extractOpportunityNameFromLink row.linkCell ≠ some oppName)) },
          r.accountName = a.accountName) ∧
      ({ src with renewals := src.renewals.filter (fun row =>
          decide (extractOpportunityNameFromLink row.linkCell ≠ some oppName)) }
        : SourceData).emails = src.emails ∧
      ({ src with renewals := src.renewals.filter (fun row =>
          decide (extractOpportunityNameFromLink row.linkCell ≠ some oppName)) }
        : SourceData).calendar = src.calendar ∧
      ({ src with renewals := src.renewals.filter (fun row =>
          decide (extractOpportunityNameFromLink row.linkCell ≠ some oppName)) }
        : SourceData).github = src.github) := by
  have hmain : ∀ (src2 : SourceData), src2.accounts = src.accounts →
      ((∃ r ∈ buildConsolidatedData ss now src2, r.accountName = a.accountName) ↔
        ∃ oppName renewalLink,
          jsGet (buildOppIdToNameMap src2.opptys) a.nextRenewalOppId =
            some oppName ∧ oppName ≠ "" ∧
          jsGet (buildRenewalOpportunityMap src2.renewals) oppName =
            some renewalLink) := by
    intro src2 hacc
    constructor
    · rintro ⟨r, hr, hname⟩
      rw [buildConsolidatedData, mem_sortByKeyAsc] at hr
      rcases consFoldl_mem_cases ss now src2 src2.accounts [] r hr with h1 |
        ⟨b, hb, n, link, hget, hn, hren, heq⟩
      · exact absurd h1 (List.not_mem_nil r)
      · have hbname : b.accountName = a.accountName := by
          rw [← hname, heq]
          rfl
        have hba : b = a := by
          rw [hacc] at hb
          exact List.inj_on_of_nodup_map hnames hb ha hbname
        rw [← hba]
        exact ⟨n, link, hget, hn, hren⟩
    · rintro ⟨n, link, hget, hn, hren⟩
      refine ⟨consolidatedRowFor ss now src2 a n link, ?_, rfl⟩
      rw [buildConsolidatedData, mem_sortByKeyAsc]
      exact consFoldl_mem_of_pass ss now src2 src2.accounts a n link hget hn
        hren [] (hacc ▸ ha)
  refine ⟨hmain src rfl, ?_⟩
  intro oppName hget
  refine ⟨?_, rfl, rfl, rfl⟩
  intro hex
  rcases (hmain { src with renewals := src.renewals.filter (fun row =>
      decide (extractOpportunityNameFromLink row.linkCell ≠ some oppName)) }
    rfl).mp hex with ⟨n, link, hget2, hn, hren⟩
  have hnn : n = oppName := by
    have h2 := hget2.symm.trans hget
    exact Option.some.inj h2
  rw [hnn] at hren
  rw [jsGet_buildRenewalOpportunityMap_none _ oppName (fun row hrow => by
    have hf := (List.mem_filter.mp hrow).2
    exact of_decide_eq_true hf)] at hren
  exact Option.noConfusion hren

/-- Witness for C1 at the spec's Acme scenario: the join succeeds, so
`Acme Corp` appears in the view. -/
theorem c1_witness :
    (List.map (fun a => a.accountName) srcC1.accounts).Nodup ∧
    (⟨"ACC1", "Acme Corp", "OPP1", ""⟩ : AccountRow) ∈ srcC1.accounts ∧
    (∃ r ∈ buildConsolidatedData ssC1 1704103200000 srcC1,
      r.accountName = "Acme Corp") := by
  refine ⟨by decide, by decide, ?_⟩
  exact ((c1_consolidated_view_join ssC1 1704103200000 srcC1 (by decide)
    ⟨"ACC1", "Acme Corp", "OPP1", ""⟩ (by decide)).1).mpr
    ⟨"2026 - REN - Acme", renewalAcme.linkCell, by decide, by decide, by decide⟩

/-! ## C8: a missing optional source table degrades its aggregate to empty -/

theorem consolidated_tasks_empty (ss : Spreadsheet) (now : Int)
    (src : SourceData) (hg : src.github = []) :
    ∀ r ∈ buildConsolidatedData ss now src, r.tasks = [] := by
  intro r hr
  rw [buildConsolidatedData, mem_sortByKeyAsc] at hr
  rcases consFoldl_mem_cases ss now src src.accounts [] r hr with h1 |
    ⟨b, _, n, link, _, _, _, heq⟩
  · exact absurd h1 (List.not_mem_nil r)
  · rw [heq]
    show (jsGet (buildGitHubByAccountMap src.github) b.accountId).getD [] = []
    rw [hg]
    rfl

theorem consolidated_emails_empty (ss : Spreadsheet) (now : Int)
    (src : SourceData) (hg : src.emails = []) :
    ∀ r ∈ buildConsolidatedData ss now src, r.emails = [] := by
  intro r hr
  rw [buildConsolidatedData, mem_sortByKeyAsc] at hr
  rcases consFoldl_mem_cases ss now src src.accounts [] r hr with h1 |
    ⟨b, _, n, link, _, _, _, heq⟩
  · exact absurd h1 (List.not_mem_nil r)
  · rw [heq]
    show (jsGet (buildEmailsByAccountMap src.emails)
      (Cell.strCell b.accountId)).getD [] = []
    rw [hg]
    rfl

theorem consolidated_meetings_empty (ss : Spreadsheet) (now : Int)
    (src : SourceData) (hg : src.calendar = []) :
    ∀ r ∈ buildConsolidatedData ss now src, r.meetings = [] := by
  intro r hr
  rw [buildConsolidatedData, mem_sortByKeyAsc] at hr
  rcases consFoldl_mem_cases ss now src src.accounts [] r hr with h1 |
    ⟨b, _, n, link, _, _, _, heq⟩
  · exact absurd h1 (List.not_mem_nil r)
  · rw [heq]
    show (jsGet (buildCalendarByAccountMap now src.calendar)
      b.accountId).getD [] = []
    rw [hg]
    rfl

theorem consolidated_recaps_empty (ss : Spreadsheet) (now : Int)
    (src : SourceData) (hg : src.meetingRecaps = []) :
    ∀ r ∈ buildConsolidatedData ss now src, r.meetingRecaps = [] := by
  intro r hr
  rw [buildConsolidatedData, mem_sortByKeyAsc] at hr
  rcases consFoldl_mem_cases ss now src src.accounts [] r hr with h1 |
    ⟨b, _, n, link, _, _, _, heq⟩
  · exact absurd h1 (List.not_mem_nil r)
  · rw [heq]
    show (jsGet (buildMeetingRecapsByAccountMap src.meetingRecaps)
      b.accountId).getD [] = []
    rw [hg]
    rfl

theorem consolidated_actionItems_empty (ss : Spreadsheet) (now : Int)
    (src : SourceData) (hg : src.actionItems = []) :
    ∀ r ∈ buildConsolidatedData ss now src, r.actionItems = [] := by
  intro r hr
  rw [buildConsolidatedData, mem_sortByKeyAsc] at hr
  rcases consFoldl_mem_cases ss now src src.accounts [] r hr with h1 |
    ⟨b, _, n, link, _, _, _, heq⟩
  · exact absurd h1 (List.not_mem_nil r)
  · rw [heq]
    show (jsGet (buildActionItemsByAccountMap ss src.actionItems)
      b.accountId).getD [] = []
    rw [hg]
    cases hmr : ss.meetingRecaps with
    | none => simp [buildActionItemsByAccountMap, hmr, jsGet_nil]
    | some rowsR => simp [buildActionItemsByAccountMap, hmr, jsGet_nil]

/-- C8: when a non-required source table (tasks, emails, calendar events,
meeting recaps or action items) is missing, `loadSourceData` still succeeds,
the corresponding per-account aggregate of every view row is empty, and every
account passing the join still receives an output row. -/
theorem c8_missing_source_degrades (ss : Spreadsheet) (now : Int)
    (accounts : List AccountRow) (opptys : List OpptyRow)
    (renewals : List RenewalRow) (hacc : ss.accounts = some accounts)
    (hopp : ss.opptys = some opptys) (hren : ss.renewals = some renewals) :
    ∃ src, loadSourceData ss = Except.ok src ∧
      (ss.github = none →
        ∀ r ∈ buildConsolidatedData ss now src, r.tasks = []) ∧
      (ss.emails = none →
        ∀ r ∈ buildConsolidatedData ss now src, r.emails = []) ∧
      (ss.calendar = none →
        ∀ r ∈ buildConsolidatedData ss now src, r.meetings = []) ∧
      (ss.meetingRecaps = none →
        ∀ r ∈ buildConsolidatedData ss now src, r.meetingRecaps = []) ∧
      (ss.actionItems = none →
        ∀ r ∈ buildConsolidatedData ss now src, r.actionItems = []) ∧
      (∀ a ∈ src.accounts, ∀ oppName renewalLink,
        jsGet (buildOppIdToNameMap src.opptys) a.nextRenewalOppId =
          some oppName → oppName ≠ "" →
        jsGet (buildRenewalOpportunityMap src.renewals) oppName =
          some renewalLink →
        ∃ r ∈ buildConsolidatedData ss now src,
          r.accountName = a.accountName) := by
  refine ⟨⟨accounts, opptys, renewals, ss.github.getD [], ss.emails.getD [],
    ss.calendar.getD [], ss.meetingRecaps.getD [], ss.actionItems.getD []⟩,
    ?_, ?_, ?_, ?_, ?_, ?_, ?_⟩
  · simp only [loadSourceData, hacc, hopp, hren]
  · intro hg
    exact consolidated_tasks_empty ss now _ (by show ss.github.getD [] = []; rw [hg]; rfl)
  · intro hg
    exact consolidated_emails_empty ss now _ (by show ss.emails.getD [] = []; rw [hg]; rfl)
  · intro hg
    exact consolidated_meetings_empty ss now _ (by show ss.calendar.getD [] = []; rw [hg]; rfl)
  · intro hg
    exact consolidated_recaps_empty ss now _ (by show ss.meetingRecaps.getD [] = []; rw [hg]; rfl)
  · intro hg
    exact consolidated_actionItems_empty ss now _ (by show ss.actionItems.getD [] = []; rw [hg]; rfl)
  · intro a ha oppName renewalLink hget hn hrenew
    refine ⟨consolidatedRowFor ss now ⟨accounts, opptys, renewals,
      ss.github.getD [], ss.emails.getD [], ss.calendar.getD [],
      ss.meetingRecaps.getD [], ss.actionItems.getD []⟩ a oppName renewalLink,
      ?_, rfl⟩
    rw [buildConsolidatedData, mem_sortByKeyAsc]
    exact consFoldl_mem_of_pass ss now _ _ a oppName renewalLink hget hn
      hrenew [] ha

/-- Witness for C8: the Acme spreadsheet has all five optional tables
missing; the run succeeds, the aggregates are empty, and Acme Corp still
receives its row. -/
theorem c8_witness :
    ssC1.accounts = some [⟨"ACC1", "Acme Corp", "OPP1", ""⟩] ∧
    ssC1.github = none ∧ ssC1.emails = none ∧
    ∃ src, loadSourceData ssC1 = Except.ok src ∧
      (∀ r ∈ buildConsolidatedData ssC1 1704103200000 src, r.tasks = []) ∧
      (∀ r ∈ buildConsolidatedData ssC1 1704103200000 src, r.emails = []) := by
  refine ⟨rfl, rfl, rfl, ?_⟩
  obtain ⟨src, hload, h1, h2, _, _, _, _⟩ :=
    c8_missing_source_degrades ssC1 1704103200000
      [⟨"ACC1", "Acme Corp", "OPP1", ""⟩] [⟨"OPP1", "2026 - REN - Acme"⟩]
      [renewalAcme] rfl rfl rfl
  exact ⟨src, hload, h1 rfl, h2 rfl⟩

theorem jsStartsWith_of_0010 (s : String) (h : jsStartsWith s "0010" = true) :
    jsStartsWith s "001" = true := by
  rw [jsStartsWith] at h ⊢
  rw [decide_eq_true_eq] at h ⊢
  have h2 : s.data.take 4 = "0010".data := h
  have h3 : s.data.take 3 = ("0010".data).take 3 := by
    rw [← h2, List.take_take]
    norm_num
  show s.data.take 3 = "001".data
  rw [h3]
  decide

theorem jsStartsWith_of_0016 (s : String) (h : jsStartsWith s "0016" = true) :
    jsStartsWith s "001" = true := by
  rw [jsStartsWith] at h ⊢
  rw [decide_eq_true_eq] at h ⊢
  have h2 : s.data.take 4 = "0016".data := h
  have h3 : s.data.take 3 = ("0016".data).take 3 := by
    rw [← h2, List.take_take]
    norm_num
  show s.data.take 3 = "001".data
  rw [h3]
  decide

theorem foldl_filter_skip {α β : Type} (step : β → α → β) (p : α → Bool)
    (h : ∀ acc a, p a = false → step acc a = acc) :
    ∀ (rows : List α) (m0 : β),
      rows.foldl step m0 = (rows.filter p).foldl step m0 := by
  intro rows
  induction rows with
  | nil => intro m0; rfl
  | cons a rest ih =>
    intro m0
    simp only [List.foldl_cons, List.filter_cons]
    cases hp : p a with
    | true => simp only [List.foldl_cons]; exact ih (step m0 a)
    | false => rw [h m0 a hp]; exact ih m0

/-- C10: the per-account email aggregation includes a row exactly when its
`Account ID` cell is truthy and, when it is a string, starts with `001` or
`006`; rows failing the test are invisible to the aggregation (filtering them
away beforehand yields the same map, hence the same counts, last-email date
and engagement-score inputs). -/
theorem c10_email_row_inclusion (emails : List EmailRow) (row : EmailRow) :
    buildEmailsByAccountMap emails =
      buildEmailsByAccountMap (emails.filter (fun r =>
        r.accountId.truthy && !(emailIdLooksLikeName r.accountId))) ∧
    ((row.accountId.truthy && !(emailIdLooksLikeName row.accountId)) = true ↔
      (row.accountId.truthy = true ∧ ∀ s, row.accountId = Cell.strCell s →
        (jsStartsWith s "001" = true ∨ jsStartsWith s "006" = true))) := by
  constructor
  · have hskip : ∀ (acc : List (Cell × List EmailRec)) (r : EmailRow),
        (fun r : EmailRow =>
          r.accountId.truthy && !(emailIdLooksLikeName r.accountId)) r = false →
        (fun (m : List (Cell × List EmailRec)) (row : EmailRow) =>
          if !row.accountId.truthy then m
          else if emailIdLooksLikeName row.accountId then m
          else
            jsPush m row.accountId
              (⟨row.messageId, row.date,
                containsSub (strLower row.fromDomain) "observepoint.com",
                row.subject, String.mk (row.bodyPreview.data.take 200)⟩ :
                EmailRec)) acc r = acc := by
      intro acc r hp
      simp only at hp
      by_cases ht : r.accountId.truthy = true
      · have hl : emailIdLooksLikeName r.accountId = true := by
          rcases Bool.and_eq_false_iff.mp hp with h1 | h1
          · rw [ht] at h1
            exact absurd h1 (by simp)
          · simpa using h1
        simp only [ht, hl]
        rfl
      · have ht2 : r.accountId.truthy = false := by
          cases hb : r.accountId.truthy
          · rfl
          · exact absurd hb ht
        simp only [ht2]
        rfl
    have hfold := foldl_filter_skip _ _ hskip emails []
    rw [buildEmailsByAccountMap, buildEmailsByAccountMap, hfold]
  · constructor
    · intro h
      rw [Bool.and_eq_true] at h
      refine ⟨h.1, ?_⟩
      intro s hs
      have h2 := h.2
      rw [hs] at h2
      have h4 : emailIdLooksLikeName (Cell.strCell s) = false := by
        cases hb : emailIdLooksLikeName (Cell.strCell s)
        · rfl
        · rw [hb] at h2; exact absurd h2 (by simp)
      rw [emailIdLooksLikeName] at h4
      have h3 : (jsStartsWith s "001" || jsStartsWith s "006" ||
          jsStartsWith s "0010" || jsStartsWith s "0016") = true := by
        cases hb : (jsStartsWith s "001" || jsStartsWith s "006" ||
            jsStartsWith s "0010" || jsStartsWith s "0016")
        · rw [hb] at h4; exact absurd h4 (by simp)
        · rfl
      have h5 : jsStartsWith s "001" = true ∨ jsStartsWith s "006" = true ∨
          jsStartsWith s "0010" = true ∨ jsStartsWith s "0016" = true := by
        simpa [Bool.or_assoc] using h3
      rcases h5 with h6 | h6 | h6 | h6
      · exact Or.inl h6
      · exact Or.inr h6
      · exact Or.inl (jsStartsWith_of_0010 s h6)
      · exact Or.inl (jsStartsWith_of_0016 s h6)
    · rintro ⟨ht, hall⟩
      rw [Bool.and_eq_true]
      refine ⟨ht, ?_⟩
      cases hc : row.accountId with
      | emptyCell => rfl
      | numCell n => rfl
      | strCell s =>
        have h1 := hall s hc
        have h2 : (jsStartsWith s "001" || jsStartsWith s "006" ||
            jsStartsWith s "0010" || jsStartsWith s "0016") = true := by
          rcases h1 with h1 | h1 <;> simp [h1]
        rw [emailIdLooksLikeName, h2]
        rfl

/-- Witness for C10: a row whose account id is the name `Acme Corp` is
dropped from the aggregation while a `001`-prefixed id row is kept. -/
theorem c10_witness :
    buildEmailsByAccountMap [emailRowName, emailRow001] =
      buildEmailsByAccountMap [emailRow001] := by
  have h := (c10_email_row_inclusion [emailRowName, emailRow001] emailRow001).1
  have hf : ([emailRowName, emailRow001].filter (fun r =>
      r.accountId.truthy && !(emailIdLooksLikeName r.accountId))) =
      [emailRow001] := by decide
  rw [h, hf]

/-! ### C5 lemmas and theorem -/

theorem latestTime_eq_none (l : List Int) (h : latestTime l = none) : l = [] := by
  cases l with
  | nil => rfl
  | cons t ts =>
    rw [latestTime] at h
    cases h1 : latestTime ts <;> rw [h1] at h <;> cases h

theorem latestTime_mem_le (l : List Int) (m : Int) (h : latestTime l = some m) :
    m ∈ l ∧ ∀ x ∈ l, x ≤ m := by
  induction l generalizing m with
  | nil => cases h
  | cons t ts ih =>
    rw [latestTime] at h
    cases h1 : latestTime ts with
    | none =>
      rw [h1] at h
      have ht := Option.some.inj h
      subst ht
      have hts := latestTime_eq_none ts h1
      subst hts
      exact ⟨List.mem_cons.mpr (Or.inl rfl), fun x hx => by
        rcases List.mem_cons.mp hx with h2 | h2
        · exact le_of_eq h2
        · exact absurd h2 (List.not_mem_nil x)⟩
    | some mm =>
      rw [h1] at h
      have ht := Option.some.inj h
      obtain ⟨hmem, hle⟩ := ih mm h1
      constructor
      · rcases le_total t mm with h2 | h2
        · rw [← ht, max_eq_right h2]
          exact List.mem_cons.mpr (Or.inr hmem)
        · rw [← ht, max_eq_left h2]
          exact List.mem_cons.mpr (Or.inl rfl)
      · intro x hx
        rcases List.mem_cons.mp hx with h2 | h2
        · rw [← ht, h2]
          exact le_max_left t mm
        · rw [← ht]
          exact le_trans (hle x h2) (le_max_right t mm)

theorem latestTime_of_max (l : List Int) (t : Int) (ht : t ∈ l)
    (hmax : ∀ x ∈ l, x ≤ t) : latestTime l = some t := by
  cases hl : latestTime l with
  | none =>
    rw [latestTime_eq_none l hl] at ht
    exact absurd ht (List.not_mem_nil t)
  | some m =>
    obtain ⟨hm, hb⟩ := latestTime_mem_le l m hl
    rw [le_antisymm (hmax m hm) (hb t ht)]

theorem latestTime_append (l1 l2 : List Int) :
    latestTime (l1 ++ l2) = omax (latestTime l1) (latestTime l2) := by
  induction l1 with
  | nil => rfl
  | cons t ts ih =>
    rw [List.cons_append, latestTime, latestTime, ih]
    cases h1 : latestTime ts <;> cases h2 : latestTime l2 <;>
      simp [omax, max_assoc]

theorem lastEmailDate_eq_latest (emails : List EmailRec)
    (hsorted : List.Sorted
      (fun a b : EmailRec => b.date.getD 0 ≤ a.date.getD 0) emails)
    (hpos : ∀ e ∈ emails, ∀ t, e.date = some t → 0 < t) :
    headDate emails = latestTime (emails.filterMap (fun e => e.date)) := by
  cases emails with
  | nil => rfl
  | cons e rest =>
    have hall : ∀ b ∈ rest, b.date.getD 0 ≤ e.date.getD 0 :=
      (List.sorted_cons.mp hsorted).1
    show e.date = _
    cases hd : e.date with
    | some t =>
      rw [List.filterMap_cons]
      rw [hd]
      symm
      apply latestTime_of_max
      · exact List.mem_cons.mpr (Or.inl rfl)
      · intro x hx
        rcases List.mem_cons.mp hx with h1 | h1
        · exact le_of_eq h1
        · obtain ⟨b, hb, hbd⟩ := List.mem_filterMap.mp h1
          have h2 := hall b hb
          rw [hbd, hd] at h2
          exact h2
    | none =>
      have hnil : (e :: rest).filterMap (fun e => e.date) = [] := by
        rw [List.filterMap_eq_nil_iff]
        intro b hb
        rcases List.mem_cons.mp hb with h1 | h1
        · rw [h1]; exact hd
        · cases hbd : b.date with
          | none => rfl
          | some d =>
            have h2 := hall b h1
            rw [hbd, hd] at h2
            have h3 := hpos b (List.mem_cons.mpr (Or.inr h1)) d hbd
            simp only [Option.getD] at h2
            omega
      rw [hnil]
      rfl

theorem lastMeetingDate_eq_latest (pastMeetings : List MeetingRec)
    (hsome : ∀ mm ∈ pastMeetings, mm.startTime.isSome = true) :
    headStartTime (sortByKeyDesc (fun m : MeetingRec => m.startTime.getD 0)
        pastMeetings) =
      latestTime (pastMeetings.filterMap (fun mm => mm.startTime)) := by
  cases hs : sortByKeyDesc (fun m : MeetingRec => m.startTime.getD 0)
      pastMeetings with
  | nil =>
    have hnil : pastMeetings = [] := by
      cases hpm : pastMeetings with
      | nil => rfl
      | cons p ps =>
        have hmem : p ∈ sortByKeyDesc
            (fun m : MeetingRec => m.startTime.getD 0) pastMeetings := by
          rw [mem_sortByKeyDesc, hpm]
          exact List.mem_cons.mpr (Or.inl rfl)
        rw [hs] at hmem
        exact absurd hmem (List.not_mem_nil p)
    rw [hnil]
    rfl
  | cons h t =>
    have hmem : h ∈ pastMeetings := by
      have := (mem_sortByKeyDesc (fun m : MeetingRec => m.startTime.getD 0)
        pastMeetings h).mp
      rw [hs] at this
      exact this (List.mem_cons.mpr (Or.inl rfl))
    obtain ⟨th, hth⟩ := Option.isSome_iff_exists.mp (hsome h hmem)
    show h.startTime = _
    rw [hth]
    symm
    apply latestTime_of_max
    · exact List.mem_filterMap.mpr ⟨h, hmem, hth⟩
    · intro x hx
      obtain ⟨b, hb, hbd⟩ := List.mem_filterMap.mp hx
      have h2 := head_sortByKeyDesc_max
        (fun m : MeetingRec => m.startTime.getD 0) pastMeetings h t hs b hb
      simp only at h2
      rw [hbd, hth] at h2
      exact h2

/-- C5: the engagement score is the sum of the five exact threshold bands
capped at 100, and `daysSinceLastContact` is the whole number of days since
the later of the last email date and the last past-meeting date (`none`, and
a zero recency contribution, when no contact is recorded).  The email list is
assumed sorted most-recent-first with post-epoch dates, as
`buildEmailsByAccountMap` delivers it. -/
theorem c5_engagement_score_bands (now : Int) (tasks : List TaskRec)
    (emails : List EmailRec) (meetings : List MeetingRec)
    (meetingRecaps : List RecapRec) (actionItems : List String)
    (hsorted : List.Sorted
      (fun a b : EmailRec => b.date.getD 0 ≤ a.date.getD 0) emails)
    (hpos : ∀ e ∈ emails, ∀ t, e.date = some t → 0 < t) :
    (computeEngagementMetrics now tasks emails meetings meetingRecaps
        actionItems).engagementScore =
      min 100
        (recencyBand (computeEngagementMetrics now tasks emails meetings
            meetingRecaps actionItems).daysSinceLastContact +
          emailVolumeBand (computeEngagementMetrics now tasks emails meetings
            meetingRecaps actionItems).emails90d +
          meetingVolumeBand (computeEngagementMetrics now tasks emails meetings
            meetingRecaps actionItems).meetings30d +
          futureMeetingBand (computeEngagementMetrics now tasks emails meetings
            meetingRecaps actionItems).meetingsFuture +
          openTasksBand (computeEngagementMetrics now tasks emails meetings
            meetingRecaps actionItems).tasksOpen) ∧
    (computeEngagementMetrics now tasks emails meetings meetingRecaps
        actionItems).daysSinceLastContact =
      Option.map (fun d => Int.fdiv (now - d) 86400000)
        (latestTime (emails.filterMap (fun e => e.date) ++
          (meetings.filter (fun mm =>
            match mm.startTime with
            | some d => decide (d < now)
            | none => false)).filterMap (fun mm => mm.startTime))) := by
  constructor
  · rfl
  · have hle := lastEmailDate_eq_latest emails hsorted hpos
    have hsome : ∀ mm ∈ meetings.filter (fun mm =>
        match mm.startTime with
        | some d => decide (d < now)
        | none => false), mm.startTime.isSome = true := by
      intro mm hmm
      have hp := (List.mem_filter.mp hmm).2
      cases hst : mm.startTime with
      | some d => rfl
      | none => rw [hst] at hp; cases hp
    have hlm := lastMeetingDate_eq_latest (meetings.filter (fun mm =>
      match mm.startTime with
      | some d => decide (d < now)
      | none => false)) hsome
    have hcombine : ∀ x y : Option Int, lastContactOf x y = omax x y := by
      intro x y
      cases x with
      | none => cases y <;> rfl
      | some a =>
        cases y with
        | none => rfl
        | some b =>
          show some (if a < b then b else a) = some (max a b)
          congr 1
          by_cases h : a < b
          · rw [if_pos h, max_eq_right (le_of_lt h)]
          · rw [if_neg h, max_eq_left (not_lt.mp h)]
    have hproj : (computeEngagementMetrics now tasks emails meetings
        meetingRecaps actionItems).daysSinceLastContact =
      Option.map (fun d => Int.fdiv (now - d) 86400000)
        (lastContactOf (headDate emails)
          (headStartTime (sortByKeyDesc
            (fun m : MeetingRec => m.startTime.getD 0)
            (meetings.filter (fun mm =>
              match mm.startTime with
              | some d => decide (d < now)
              | none => false))))) := rfl
    rw [hproj, hle, hlm, hcombine, latestTime_append]

/-- Witness for C5 at a concrete account state (one recent email, one past
meeting, one open task): the score equals the band sum and evaluates to
60. -/
theorem c5_witness :
    List.Sorted (fun a b : EmailRec => b.date.getD 0 ≤ a.date.getD 0)
      emailsC5 ∧
    (computeEngagementMetrics 1704103200000 tasksC5 emailsC5 meetingsC5 []
        []).engagementScore =
      min 100
        (recencyBand (computeEngagementMetrics 1704103200000 tasksC5 emailsC5
            meetingsC5 [] []).daysSinceLastContact +
          emailVolumeBand (computeEngagementMetrics 1704103200000 tasksC5
            emailsC5 meetingsC5 [] []).emails90d +
          meetingVolumeBand (computeEngagementMetrics 1704103200000 tasksC5
            emailsC5 meetingsC5 [] []).meetings30d +
          futureMeetingBand (computeEngagementMetrics 1704103200000 tasksC5
            emailsC5 meetingsC5 [] []).meetingsFuture +
          openTasksBand (computeEngagementMetrics 1704103200000 tasksC5
            emailsC5 meetingsC5 [] []).tasksOpen) ∧
    (computeEngagementMetrics 1704103200000 tasksC5 emailsC5 meetingsC5 []
        []).engagementScore = 60 := by
  have hpos : ∀ e ∈ emailsC5, ∀ t, e.date = some t → 0 < t := by
    intro e he t ht
    simp only [emailsC5, List.mem_singleton] at he
    subst he
    have h2 := Option.some.inj ht
    omega
  refine ⟨by decide, ?_, by decide⟩
  exact (c5_engagement_score_bands 1704103200000 tasksC5 emailsC5 meetingsC5
    [] [] (by decide) hpos).1

theorem pickBest_foldl_spec (recap : MRecap) (cands : List MEvent) :
    ∀ acc : Option MEvent × Option Int,
      (∀ e0, acc.1 = some e0 →
        acc.2 = absStartDiff recap e0 ∧ ∃ d1, acc.2 = some d1) →
      ole (cands.foldl (pickBestStep recap) acc).2 acc.2 ∧
      (∀ e2 ∈ cands, ∀ d2, absStartDiff recap e2 = some d2 →
        ole (cands.foldl (pickBestStep recap) acc).2 (some d2)) ∧
      (cands.foldl (pickBestStep recap) acc = acc ∨
        ∃ e ∈ cands, cands.foldl (pickBestStep recap) acc =
          (some e, absStartDiff recap e)) ∧
      (∀ e0, (cands.foldl (pickBestStep recap) acc).1 = some e0 →
        (cands.foldl (pickBestStep recap) acc).2 = absStartDiff recap e0 ∧
        ∃ d1, (cands.foldl (pickBestStep recap) acc).2 = some d1) := by
  induction cands with
  | nil =>
    intro acc hacc
    refine ⟨?_, fun e2 he2 => absurd he2 (List.not_mem_nil e2), Or.inl rfl, hacc⟩
    cases h : acc.2 with
    | none => trivial
    | some b => exact ⟨b, h, le_refl b⟩
  | cons e0 rest ih =>
    intro acc hacc
    simp only [List.foldl_cons]
    by_cases hlt : diffLt (absStartDiff recap e0) acc.2 = true
    · have hd0 : ∃ a, absStartDiff recap e0 = some a := by
        cases h : absStartDiff recap e0 with
        | none => rw [h] at hlt; cases hlt
        | some a => exact ⟨a, rfl⟩
      obtain ⟨a0, ha0⟩ := hd0
      have hstep : pickBestStep recap acc e0 = (some e0, some a0) := by
        unfold pickBestStep
        rw [if_pos hlt, ha0]
      rw [hstep]
      have haccpre : ∀ e1,
          ((some e0, some a0) : Option MEvent × Option Int).1 = some e1 →
          ((some e0, some a0) : Option MEvent × Option Int).2 =
            absStartDiff recap e1 ∧
          ∃ d1, ((some e0, some a0) : Option MEvent × Option Int).2 =
            some d1 := by
        intro e1 he1
        have he : e0 = e1 := Option.some.inj he1
        subst he
        exact ⟨ha0.symm, a0, rfl⟩
      obtain ⟨hA, hB, hC, hD⟩ := ih (some e0, some a0) haccpre
      have hA2 : ∃ a, (rest.foldl (pickBestStep recap)
          (some e0, some a0)).2 = some a ∧ a ≤ a0 := hA
      obtain ⟨a, haeq, hle⟩ := hA2
      refine ⟨?_, ?_, ?_, hD⟩
      · cases hacc2 : acc.2 with
        | none => trivial
        | some b =>
          rw [hacc2, ha0] at hlt
          have hab : a0 < b := of_decide_eq_true hlt
          exact ⟨a, haeq, le_trans hle (le_of_lt hab)⟩
      · intro e2 he2 d2 hd2
        rcases List.mem_cons.mp he2 with h1 | h1
        · subst h1
          rw [ha0] at hd2
          have had : a0 = d2 := Option.some.inj hd2
          subst had
          exact ⟨a, haeq, hle⟩
        · exact hB e2 h1 d2 hd2
      · rcases hC with h1 | ⟨e, he, heq⟩
        · refine Or.inr ⟨e0, List.mem_cons.mpr (Or.inl rfl), ?_⟩
          rw [h1, ha0]
        · exact Or.inr ⟨e, List.mem_cons.mpr (Or.inr he), heq⟩
    · have hstep : pickBestStep recap acc e0 = acc := by
        unfold pickBestStep
        rw [if_neg hlt]
      rw [hstep]
      obtain ⟨hA, hB, hC, hD⟩ := ih acc hacc
      refine ⟨hA, ?_, ?_, hD⟩
      · intro e2 he2 d2 hd2
        rcases List.mem_cons.mp he2 with h1 | h1
        · subst h1
          rw [hd2] at hlt
          cases hacc2 : acc.2 with
          | none =>
            rw [hacc2] at hlt
            simp [diffLt] at hlt
          | some b =>
            rw [hacc2] at hlt
            have hble : b ≤ d2 := by
              simp only [diffLt, decide_eq_true_eq] at hlt
              omega
            rw [hacc2] at hA
            obtain ⟨a, haeq, hle⟩ := hA
            exact ⟨a, haeq, le_trans hle hble⟩
        · exact hB e2 h1 d2 hd2
      · rcases hC with h1 | ⟨e, he, heq⟩
        · exact Or.inl h1
        · exact Or.inr ⟨e, List.mem_cons.mpr (Or.inr he), heq⟩

theorem isCandidate_set_endTime (r : MRecap) (e : MEvent)
    (x y : Option Int) :
    isCandidate { r with endTime := x } { e with endTime := y } =
      isCandidate r e := rfl

theorem absStartDiff_set_endTime (r : MRecap) (e : MEvent)
    (x y : Option Int) :
    absStartDiff { r with endTime := x } { e with endTime := y } =
      absStartDiff r e := rfl

theorem pickBest_map_endTime (r : MRecap) (f : MRecap → Option Int)
    (g : MEvent → Option Int) (cands : List MEvent) :
    ∀ (accE : Option MEvent) (accD : Option Int),
      (cands.map (fun e => { e with endTime := g e })).foldl
        (pickBestStep { r with endTime := f r })
        (accE.map (fun e => { e with endTime := g e }), accD) =
      ((cands.foldl (pickBestStep r) (accE, accD)).1.map
        (fun e => { e with endTime := g e }),
       (cands.foldl (pickBestStep r) (accE, accD)).2) := by
  induction cands with
  | nil => intro accE accD; rfl
  | cons e cs ih =>
    intro accE accD
    simp only [List.map_cons, List.foldl_cons]
    by_cases hlt : diffLt (absStartDiff r e) accD = true
    · have hstep' : pickBestStep { r with endTime := f r }
          (accE.map (fun e => { e with endTime := g e }), accD)
          { e with endTime := g e } =
          ((some e).map (fun e => { e with endTime := g e }),
            absStartDiff r e) := by
        simp only [pickBestStep, absStartDiff_set_endTime, hlt, if_true]
        rfl
      rw [hstep']
      have hstep : pickBestStep r (accE, accD) e =
          (some e, absStartDiff r e) := by
        simp only [pickBestStep, hlt, if_true]
      rw [hstep]
      exact ih (some e) (absStartDiff r e)
    · rw [Bool.not_eq_true] at hlt
      have hstep' : pickBestStep { r with endTime := f r }
          (accE.map (fun e => { e with endTime := g e }), accD)
          { e with endTime := g e } =
          (accE.map (fun e => { e with endTime := g e }), accD) := by
        simp only [pickBestStep, absStartDiff_set_endTime, hlt,
          Bool.false_eq_true, if_false]
      rw [hstep']
      have hstep : pickBestStep r (accE, accD) e = (accE, accD) := by
        simp only [pickBestStep, hlt, Bool.false_eq_true, if_false]
      rw [hstep]
      exact ih accE accD

theorem matcher_map_endTime (f : MRecap → Option Int)
    (g : MEvent → Option Int) (events : List MEvent) (rs : List MRecap) :
    ∀ init : List MatchRec,
      (rs.map (fun r => { r with endTime := f r })).foldl
        (fun matchList recap =>
          let candidates := (events.map (fun e => { e with endTime := g e
            })).filter (fun e => isCandidate recap e)
          match pickBest recap candidates with
          | (some bestMatch, smallestStartDiff) =>
            matchList ++ [⟨recap.recapId, recap.rowIndex, bestMatch.eventId,
              bestMatch.rowIndex, smallestStartDiff⟩]
          | (none, _) => matchList) init =
      rs.foldl
        (fun matchList recap =>
          let candidates := events.filter (fun e => isCandidate recap e)
          match pickBest recap candidates with
          | (some bestMatch, smallestStartDiff) =>
            matchList ++ [⟨recap.recapId, recap.rowIndex, bestMatch.eventId,
              bestMatch.rowIndex, smallestStartDiff⟩]
          | (none, _) => matchList) init := by
  induction rs with
  | nil => intro init; rfl
  | cons r rs ih =>
    intro init
    simp only [List.map_cons, List.foldl_cons]
    have hcands : (events.map (fun e => { e with endTime := g e })).filter
        (fun e => isCandidate { r with endTime := f r } e) =
        (events.filter (fun e => isCandidate r e)).map
          (fun e => { e with endTime := g e }) := by
      rw [List.filter_map]
      congr 1
    rw [hcands]
    have hpick : pickBest { r with endTime := f r }
        ((events.filter (fun e => isCandidate r e)).map
          (fun e => { e with endTime := g e })) =
        ((pickBest r (events.filter (fun e => isCandidate r e))).1.map
          (fun e => { e with endTime := g e }),
         (pickBest r (events.filter (fun e => isCandidate r e))).2) :=
      pickBest_map_endTime r f g (events.filter (fun e => isCandidate r e))
        none none
    rw [hpick]
    cases hpb : pickBest r (events.filter (fun e => isCandidate r e)) with
    | mk fst snd =>
      cases fst with
      | none => simp only [Option.map_none]; exact ih init
      | some best => simp only [Option.map_some]; exact ih (init ++
          [⟨r.recapId, r.rowIndex, best.eventId, best.rowIndex, snd⟩])

theorem matcher_fold_sound (events : List MEvent) (rs : List MRecap) :
    ∀ init : List MatchRec, ∀ m ∈ rs.foldl
      (fun matchList recap =>
        let candidates := events.filter (fun e => isCandidate recap e)
        match pickBest recap candidates with
        | (some bestMatch, smallestStartDiff) =>
          matchList ++ [⟨recap.recapId, recap.rowIndex, bestMatch.eventId,
            bestMatch.rowIndex, smallestStartDiff⟩]
        | (none, _) => matchList) init,
      m ∈ init ∨ ∃ recap ∈ rs, ∃ event ∈ events,
        m.recapId = recap.recapId ∧ m.recapRowIndex = recap.rowIndex ∧
        m.eventId = event.eventId ∧ m.eventRowIndex = event.rowIndex ∧
        isCandidate recap event = true ∧
        m.timeDiff = absStartDiff recap event ∧
        (∀ e2 ∈ events, isCandidate recap e2 = true →
          ∀ d2, absStartDiff recap e2 = some d2 →
            ∃ d, m.timeDiff = some d ∧ d ≤ d2) := by
  induction rs with
  | nil => intro init m hm; exact Or.inl hm
  | cons r rs ih =>
    intro init m hm
    simp only [List.foldl_cons] at hm
    cases hpb : pickBest r (events.filter (fun e => isCandidate r e)) with
    | mk fst snd =>
      cases fst with
      | none =>
        rw [hpb] at hm
        rcases ih init m hm with h1 | ⟨recap, hrec, rest⟩
        · exact Or.inl h1
        · exact Or.inr ⟨recap, List.mem_cons.mpr (Or.inr hrec), rest⟩
      | some best =>
        rw [hpb] at hm
        rcases ih (init ++ [⟨r.recapId, r.rowIndex, best.eventId,
            best.rowIndex, snd⟩]) m hm with h1 | ⟨recap, hrec, rest⟩
        · rcases List.mem_append.mp h1 with h2 | h2
          · exact Or.inl h2
          · have hme : m = ⟨r.recapId, r.rowIndex, best.eventId,
                best.rowIndex, snd⟩ := List.mem_singleton.mp h2
            subst hme
            refine Or.inr ⟨r, List.mem_cons.mpr (Or.inl rfl), ?_⟩
            have hpre : ∀ e0, ((none, none) :
                Option MEvent × Option Int).1 = some e0 →
                ((none, none) : Option MEvent × Option Int).2 =
                  absStartDiff r e0 ∧
                ∃ d1, ((none, none) :
                  Option MEvent × Option Int).2 = some d1 := by
              intro e0 h
              simp at h
            obtain ⟨hA, hB, hC, hD⟩ := pickBest_foldl_spec r
              (events.filter (fun e => isCandidate r e)) (none, none) hpre
            have hfold : (events.filter (fun e =>
                isCandidate r e)).foldl (pickBestStep r) (none, none) =
                (some best, snd) := hpb
            rcases hC with h3 | ⟨e, he, heq⟩
            · rw [hfold] at h3
              simp at h3
            · rw [hfold] at heq
              have hbe : best = e := by
                have := congrArg Prod.fst heq
                simpa using this
              have hsnd : snd = absStartDiff r e := by
                have := congrArg Prod.snd heq
                simpa using this
              subst hbe
              have hef := List.mem_filter.mp he
              refine ⟨best, hef.1, rfl, rfl, rfl, rfl, ?_, ?_, ?_⟩
              · simpa using hef.2
              · exact hsnd
              · intro e2 he2 hc2 d2 hd2
                have he2c : e2 ∈ events.filter
                    (fun e => isCandidate r e) :=
                  List.mem_filter.mpr ⟨he2, by simpa using hc2⟩
                have hole := hB e2 he2c d2 hd2
                rw [hfold] at hole
                exact hole
        · exact Or.inr ⟨recap, List.mem_cons.mpr (Or.inr hrec), rest⟩

/-- C2: the matcher's candidate filter accepts an event exactly when the
trimmed title matches the recap's (case-sensitively), the UTC calendar day of
the start times matches, and any two nonempty resolved account ids agree;
every emitted match pairs a recap row with a candidate event of minimum
absolute start-time difference among all candidates with a defined
difference; and the emitted match set is invariant under arbitrary changes to
every recap and event end time, so duration is never a discriminator. -/
theorem c2_matcher_filter_best_no_duration
    (recaps : List MRecap) (events : List MEvent) :
    (∀ recap event, isCandidate recap event = true ↔
      (strTrim event.title = strTrim recap.title ∧
        utcDayStr event.startTime = utcDayStr recap.startTime ∧
        (recap.accountId ≠ "" → event.accountId ≠ "" →
          recap.accountId = event.accountId))) ∧
    (∀ m ∈ matchMeetingRecapsToCalendarEvents recaps events,
      ∃ recap ∈ recaps, ∃ event ∈ events,
        m.recapId = recap.recapId ∧ m.recapRowIndex = recap.rowIndex ∧
        m.eventId = event.eventId ∧ m.eventRowIndex = event.rowIndex ∧
        isCandidate recap event = true ∧
        m.timeDiff = absStartDiff recap event ∧
        (∀ e2 ∈ events, isCandidate recap e2 = true →
          ∀ d2, absStartDiff recap e2 = some d2 →
            ∃ d, m.timeDiff = some d ∧ d ≤ d2)) ∧
    (∀ f : MRecap → Option Int, ∀ g : MEvent → Option Int,
      matchMeetingRecapsToCalendarEvents
        (recaps.map (fun r => { r with endTime := f r }))
        (events.map (fun e => { e with endTime := g e })) =
      matchMeetingRecapsToCalendarEvents recaps events) := by
  refine ⟨?_, ?_, ?_⟩
  · intro recap event
    constructor
    · intro h
      simp only [isCandidate, Bool.and_eq_true, decide_eq_true_eq] at h
      obtain ⟨⟨h1, h2⟩, h3⟩ := h
      refine ⟨h1, h2, ?_⟩
      intro ha hb
      by_contra hne
      have hand : (decide (recap.accountId ≠ "") &&
          decide (event.accountId ≠ "") &&
          decide (recap.accountId ≠ event.accountId)) = true := by
        simp [ha, hb, hne]
      rw [hand] at h3
      simp at h3
    · rintro ⟨h1, h2, h3⟩
      simp only [isCandidate, Bool.and_eq_true, decide_eq_true_eq]
      refine ⟨⟨h1, h2⟩, ?_⟩
      by_cases ha : recap.accountId = ""
      · simp [ha]
      · by_cases hb : event.accountId = ""
        · simp [ha, hb]
        · simp [ha, hb, h3 ha hb]
  · intro m hm
    have h := matcher_fold_sound events recaps [] m hm
    rcases h with h1 | h1
    · exact absurd h1 (List.not_mem_nil m)
    · exact h1
  · intro f g
    exact matcher_map_endTime f g events recaps []

theorem matcher_rowIndexes_sublist (events : List MEvent)
    (rs : List MRecap) :
    ∀ init : List MatchRec,
      ∃ t, (rs.foldl
        (fun matchList recap =>
          let candidates := events.filter (fun e => isCandidate recap e)
          match pickBest recap candidates with
          | (some bestMatch, smallestStartDiff) =>
            matchList ++ [⟨recap.recapId, recap.rowIndex, bestMatch.eventId,
              bestMatch.rowIndex, smallestStartDiff⟩]
          | (none, _) => matchList) init).map
          (fun m => m.recapRowIndex) =
        init.map (fun m => m.recapRowIndex) ++ t ∧
        t.Sublist (rs.map (fun r => r.rowIndex)) := by
  induction rs with
  | nil =>
    intro init
    exact ⟨[], by simp, List.nil_sublist []⟩
  | cons r rs ih =>
    intro init
    simp only [List.foldl_cons, List.map_cons]
    cases hpb : pickBest r (events.filter (fun e => isCandidate r e)) with
    | mk fst snd =>
      cases fst with
      | none =>
        obtain ⟨t, ht, hsub⟩ := ih init
        exact ⟨t, ht, hsub.cons r.rowIndex⟩
      | some best =>
        obtain ⟨t, ht, hsub⟩ := ih (init ++ [⟨r.recapId, r.rowIndex,
          best.eventId, best.rowIndex, snd⟩])
        refine ⟨r.rowIndex :: t, ?_, hsub.cons₂ r.rowIndex⟩
        have hrearr : (init.map (fun m => m.recapRowIndex)) ++
            (r.rowIndex :: t) =
            ((init ++ [(⟨r.recapId, r.rowIndex, best.eventId,
              best.rowIndex, snd⟩ : MatchRec)]).map
                (fun m => m.recapRowIndex)) ++ t := by
          simp
        rw [hrearr]
        exact ht

/-- C3 counterexample: two recaps with the same title on the same UTC day both
match the single `Sync` event, so one event is consumed by two distinct
matches in a single run. -/
theorem c3_counterexample :
    matchMeetingRecapsToCalendarEvents recapsC3 eventsC3 =
      [⟨"R1", 2, "E1", 2, some 0⟩, ⟨"R2", 3, "E1", 2, some 3600000⟩] ∧
    ¬ List.Pairwise (fun m1 m2 => m1.eventRowIndex ≠ m2.eventRowIndex)
        (matchMeetingRecapsToCalendarEvents recapsC3 eventsC3) := by
  exact ⟨by decide, by decide⟩

/-- C3 amended: the per-recap half of the claim holds — when the recap rows
are distinct, no recap row appears twice in the match set (each recap is
matched to at most one event); the per-event half is refuted by the
counterexample, as the matcher tracks no consumed events. -/
theorem c3_amended (recaps : List MRecap) (events : List MEvent)
    (hnd : (recaps.map (fun r => r.rowIndex)).Nodup) :
    List.Pairwise (fun m1 m2 => m1.recapRowIndex ≠ m2.recapRowIndex)
      (matchMeetingRecapsToCalendarEvents recaps events) := by
  obtain ⟨t, ht, hsub⟩ := matcher_rowIndexes_sublist events recaps []
  have heq : (matchMeetingRecapsToCalendarEvents recaps events).map
      (fun m => m.recapRowIndex) = t := by
    rw [show (matchMeetingRecapsToCalendarEvents recaps events).map
        (fun m => m.recapRowIndex) =
      ([] : List MatchRec).map (fun m => m.recapRowIndex) ++ t from ht]
    simp
  have hndt : t.Nodup := hsub.nodup hnd
  rw [← heq] at hndt
  exact (List.pairwise_map.mp hndt)

theorem c3_amended_witness :
    (recapsC3.map (fun r => r.rowIndex)).Nodup ∧
    List.Pairwise (fun m1 m2 => m1.recapRowIndex ≠ m2.recapRowIndex)
      (matchMeetingRecapsToCalendarEvents recapsC3 eventsC3) :=
  ⟨by decide, c3_amended recapsC3 eventsC3 (by decide)⟩

theorem filter_eq_singleton_of_pairwise_ne {α β : Type} [DecidableEq β]
    (f : α → β) (l : List α) (m : α) (hm : m ∈ l)
    (hp : List.Pairwise (fun a b => f a ≠ f b) l) :
    l.filter (fun x => f x = f m) = [m] := by
  induction l with
  | nil => exact absurd hm (List.not_mem_nil m)
  | cons a l ih =>
    rcases List.mem_cons.mp hm with h1 | h1
    · subst h1
      rw [List.filter_cons_of_pos (by simp)]
      have hnil : l.filter (fun x => f x = f m) = [] := by
        rw [List.filter_eq_nil_iff]
        intro x hx
        have := (List.pairwise_cons.mp hp).1 x hx
        simp only [decide_eq_true_eq]
        intro hfx
        exact this hfx.symm
      rw [hnil]
    · have hne : f a ≠ f m := (List.pairwise_cons.mp hp).1 m h1
      rw [List.filter_cons_of_neg (by simpa using hne)]
      exact ih h1 (List.pairwise_cons.mp hp).2

/-- C6 counterexample: in a run where two same-title recaps both match the
single `Standup` event, the write phase leaves recap row 2 pointing at event
row 2 while that event row records the other recap's id, so the two-sided
cross-reference writes do not hold together. -/
theorem c6_counterexample :
    (⟨"R1", 2, "E1", 2, some 0⟩ : MatchRec) ∈
      matchMeetingRecapsToCalendarEvents recapsC6 eventsC6 ∧
    recapColumnAfter (matchMeetingRecapsToCalendarEvents recapsC6 eventsC6)
      2 = some "E1" ∧
    eventColumnAfter (matchMeetingRecapsToCalendarEvents recapsC6 eventsC6)
      2 = some "R2" ∧
    eventColumnAfter (matchMeetingRecapsToCalendarEvents recapsC6 eventsC6)
      2 ≠ some "R1" := by
  exact ⟨by decide, by decide, by decide, by decide⟩

/-- C6 amended: when no two emitted matches share a recap row or an event
row — the event side being exactly the consumed-once policy the source does
not enforce — the clear-then-write phase is two-sided: every match's recap
row ends up holding that event's id and the event row that recap's id. -/
theorem c6_amended (matchList : List MatchRec)
    (hr : List.Pairwise (fun m1 m2 => m1.recapRowIndex ≠ m2.recapRowIndex)
      matchList)
    (he : List.Pairwise (fun m1 m2 => m1.eventRowIndex ≠ m2.eventRowIndex)
      matchList) :
    ∀ m ∈ matchList,
      recapColumnAfter matchList m.recapRowIndex = some m.eventId ∧
      eventColumnAfter matchList m.eventRowIndex = some m.recapId := by
  intro m hm
  constructor
  · have hf := filter_eq_singleton_of_pairwise_ne
      (fun m => m.recapRowIndex) matchList m hm hr
    unfold recapColumnAfter
    rw [hf]
    rfl
  · have hf := filter_eq_singleton_of_pairwise_ne
      (fun m => m.eventRowIndex) matchList m hm he
    unfold eventColumnAfter
    rw [hf]
    rfl

theorem c6_amended_witness :
    recapColumnAfter (matchMeetingRecapsToCalendarEvents recapsC6w
      eventsC6w) 2 = some "E1" ∧
    eventColumnAfter (matchMeetingRecapsToCalendarEvents recapsC6w
      eventsC6w) 2 = some "R1" := by
  have h := c6_amended (matchMeetingRecapsToCalendarEvents recapsC6w
      eventsC6w) (by decide) (by decide)
      ⟨"R1", 2, "E1", 2, some 0⟩ (by decide)
  exact h

/-- C4: a created recap id is stored exactly once, and redelivering the same
payload against the updated state returns `skipped` / `duplicate` with the
same id, changes no state, and raises no error. -/
theorem c4_duplicate_skip (ss : Spreadsheet) (payload : WebhookPayload)
    (res1 : WebhookResult) (ss1 : Spreadsheet)
    (h : processMeetingRecapWebhook ss payload = .ok (res1, ss1))
    (hact : res1.action = "created") :
    ((ss1.meetingRecaps.getD []).filter
      (fun r => r.meetingRecapId = res1.meetingRecapId)).length = 1 ∧
    processMeetingRecapWebhook ss1 payload =
      .ok (⟨"skipped", some "duplicate", res1.meetingRecapId⟩, ss1) := by
  cases hmi : payload.meetingInfo with
  | none =>
    simp only [processMeetingRecapWebhook, hmi] at h
    cases h
  | some mi =>
    cases hex : extractMeetingRecapId mi.meetingLink with
    | none =>
      simp only [processMeetingRecapWebhook, hmi, hex] at h
      cases h
    | some rid =>
      by_cases hdup : isMeetingRecapDuplicate rid ss = true
      · simp only [processMeetingRecapWebhook, hmi, hex, hdup, if_true,
          Except.ok.injEq, Prod.mk.injEq] at h
        rw [← h.1] at hact
        simp at hact
      · rw [Bool.not_eq_true] at hdup
        simp only [processMeetingRecapWebhook, hmi, hex, hdup,
          Bool.false_eq_true, if_false, Except.ok.injEq,
          Prod.mk.injEq] at h
        obtain ⟨hres, hss⟩ := h
        have hmr1 : ss1.meetingRecaps =
            some ((ss.meetingRecaps.getD []) ++
              [flattenWebhookMeetingRecap ss payload rid]) := by
          rw [← hss]
        have hid : (flattenWebhookMeetingRecap ss payload
            rid).meetingRecapId = rid := rfl
        have hfil : (ss.meetingRecaps.getD []).filter
            (fun r => r.meetingRecapId = rid) = [] := by
          cases hmr : ss.meetingRecaps with
          | none => rfl
          | some rows =>
            unfold isMeetingRecapDuplicate at hdup
            rw [hmr] at hdup
            simp only [List.any_eq_false, decide_eq_true_eq] at hdup
            simp only [Option.getD_some]
            rw [List.filter_eq_nil_iff]
            intro x hx
            simpa using hdup x hx
        constructor
        · rw [← hres]
          rw [hmr1]
          simp only [Option.getD_some]
          rw [List.filter_append]
          rw [hfil]
          simp [hid]
        · simp only [processMeetingRecapWebhook, hmi, hex]
          have hdup2 : isMeetingRecapDuplicate rid ss1 = true := by
            unfold isMeetingRecapDuplicate
            rw [hmr1]
            simp [hid]
          rw [hdup2]
          simp only [if_true]
          rw [← hres]

theorem c4_witness :
    processMeetingRecapWebhook ssC4 payloadC4 =
      .ok (⟨"created", none, "ngmt_01ABC"⟩, ss1C4) ∧
    ((ss1C4.meetingRecaps.getD []).filter
      (fun r => r.meetingRecapId = "ngmt_01ABC")).length = 1 ∧
    processMeetingRecapWebhook ss1C4 payloadC4 =
      .ok (⟨"skipped", some "duplicate", "ngmt_01ABC"⟩, ss1C4) := by
  have heq : processMeetingRecapWebhook ssC4 payloadC4 =
      .ok (⟨"created", none, "ngmt_01ABC"⟩, ss1C4) := rfl
  have h2 := c4_duplicate_skip ssC4 payloadC4
    ⟨"created", none, "ngmt_01ABC"⟩ ss1C4 heq rfl
  exact ⟨heq, h2.1, h2.2⟩
end OpAcct
